import Mathlib

/-!
Verification of the diagramagic svg++ compiler (src/diagramagic/diagramagic.py)
against its specification.  The element tree, length parsing, template expansion,
include bookkeeping, flex layout arithmetic, the internal layered graph layout,
anchor/arrow endpoint resolution and label-angle normalisation are shallowly
embedded below.  External collaborators (the resvg geometry oracle, the font
backend, the filesystem) are modelled as explicit oracle parameters, matching
the interface contracts of the spec.  Python floats are modelled as exact
rationals; the trigonometric label angle is modelled over the reals.
-/

namespace Diagramagic

/-- Qualified name: namespace URI (if any) plus local name, the information
ElementTree encodes in a brace-prefixed tag string and that `_namespace_of` /
`_local_name` project out. -/
structure QN where
  ns : Option String
  name : String
deriving DecidableEq, Repr

/-- A plain (un-namespaced) name, as used for ordinary attribute keys. -/
def QN.plain (s : String) : QN := ⟨none, s⟩

/-- Element tree node: tag, ordered attribute list, text, tail, ordered
children.  The empty string models an absent text/tail, matching the
truthiness tests the Python code applies to them. -/
inductive XNode where
  | mk (tag : QN) (attrs : List (QN × String)) (text : String) (tail : String)
       (children : List XNode)
deriving Repr

def XNode.tag : XNode → QN
  | .mk t _ _ _ _ => t

def XNode.attrs : XNode → List (QN × String)
  | .mk _ a _ _ _ => a

def XNode.text : XNode → String
  | .mk _ _ t _ _ => t

def XNode.tail : XNode → String
  | .mk _ _ _ t _ => t

def XNode.children : XNode → List XNode
  | .mk _ _ _ _ c => c

mutual
def XNode.beq : XNode → XNode → Bool
  | .mk t a tx tl c, .mk t' a' tx' tl' c' =>
    t = t' && a = a' && tx = tx' && tl = tl' && XNode.beqList c c'
def XNode.beqList : List XNode → List XNode → Bool
  | [], [] => true
  | x :: xs, y :: ys => XNode.beq x y && XNode.beqList xs ys
  | _, _ => false
end

mutual
theorem XNode.beq_iff : ∀ a b : XNode, XNode.beq a b = true ↔ a = b
  | .mk t a tx tl c, .mk t' a' tx' tl' c' => by
    simp only [XNode.beq, Bool.and_eq_true, decide_eq_true_eq, XNode.mk.injEq]
    have h := XNode.beqList_iff c c'
    tauto
theorem XNode.beqList_iff : ∀ c c' : List XNode, XNode.beqList c c' = true ↔ c = c'
  | [], [] => by simp [XNode.beqList]
  | [], _ :: _ => by simp [XNode.beqList]
  | _ :: _, [] => by simp [XNode.beqList]
  | x :: xs, y :: ys => by
    simp only [XNode.beqList, Bool.and_eq_true, List.cons.injEq]
    have h1 := XNode.beq_iff x y
    have h2 := XNode.beqList_iff xs ys
    tauto
end

instance : DecidableEq XNode := fun a b => decidable_of_iff _ (XNode.beq_iff a b)

instance {ε α : Type} [DecidableEq ε] [DecidableEq α] : DecidableEq (Except ε α)
  | .error e, .error e' =>
      if h : e = e' then .isTrue (by rw [h]) else .isFalse (by simp [h])
  | .error _, .ok _ => .isFalse (by simp)
  | .ok _, .error _ => .isFalse (by simp)
  | .ok a, .ok a' =>
      if h : a = a' then .isTrue (by rw [h]) else .isFalse (by simp [h])

/-- `node.get(key)`: the binding of an attribute key, if any. -/
def getAttr (n : XNode) (k : QN) : Option String :=
  n.attrs.lookup k

/-- `elem.set(key, value)`: replace an existing binding in place, else append
(Python dict insertion-order semantics). -/
def setAttrList : List (QN × String) → QN → String → List (QN × String)
  | [], k, v => [(k, v)]
  | (k', v') :: rest, k, v =>
      if k' = k then (k, v) :: rest else (k', v') :: setAttrList rest k v

def XNode.setAttr : XNode → QN → String → XNode
  | .mk t a tx tl c, k, v => .mk t (setAttrList a k v) tx tl c

/-- Does the node carry the given tag in the diag namespace? -/
def isDiagTag (diagNs : String) (localPart : String) (n : XNode) : Bool :=
  n.tag = ⟨some diagNs, localPart⟩

/-! ### Character/string helpers

Python's string methods are re-implemented over character lists so that all
definitions compute inside the kernel.  `strip`/`lower` are used by the code
only on ASCII keyword values. -/

def stripList (cs : List Char) : List Char :=
  ((cs.dropWhile Char.isWhitespace).reverse.dropWhile Char.isWhitespace).reverse

/-- Python `str.strip()`. -/
def pyStrip (s : String) : String := String.mk (stripList s.toList)

/-- Python `str.lower()` (ASCII fragment, which is all the code relies on). -/
def pyLower (s : String) : String := String.mk (s.toList.map Char.toLower)

/-- Python `str.upper()` (ASCII fragment). -/
def pyUpper (s : String) : String := String.mk (s.toList.map Char.toUpper)

/-! ### `_parse_length`

The source matches the anchored regex `-?\d+(?:\.\d+)?` against the string and
returns the float value of the match, else the caller-supplied default. -/

def natOfDigits (ds : List Char) : ℕ :=
  ds.foldl (fun a c => 10 * a + (c.toNat - '0'.toNat)) 0

def fracOfDigits (ds : List Char) : ℚ :=
  (natOfDigits ds : ℚ) / (10 : ℚ) ^ ds.length

/-- Consume the optional leading minus sign of `-?\d+(?:\.\d+)?`. -/
def splitSign (cs : List Char) : Bool × List Char :=
  match cs with
  | c :: t => if c = '-' then (true, t) else (false, c :: t)
  | [] => (false, [])

/-- Value of a fractional continuation `(?:\.\d+)?` after the integer part. -/
def fracContVal (base : ℚ) (rest2 : List Char) : ℚ :=
  match rest2 with
  | c :: t =>
      if c = '.' then
        let fs := t.takeWhile Char.isDigit
        if fs = [] then base else base + fracOfDigits fs
      else base
  | [] => base

/-- Value of the longest prefix of `cs` matching `-?\d+(?:\.\d+)?`, if any. -/
def numPrefixVal (cs : List Char) : Option ℚ :=
  let neg := (splitSign cs).1
  let rest := (splitSign cs).2
  let ds := rest.takeWhile Char.isDigit
  let rest2 := rest.dropWhile Char.isDigit
  if ds = [] then none
  else
    let v := fracContVal (natOfDigits ds) rest2
    some (if neg then -v else v)

/-- `_parse_length(value, default)`. -/
def parseLength (value : Option String) (dflt : Option ℚ) : Option ℚ :=
  match value with
  | none => dflt
  | some s =>
      match numPrefixVal s.toList with
      | some v => some v
      | none => dflt

/-! Side conditions describing when a character list cannot extend a regex
match (used to state the extensional characterisation of `_parse_length`). -/

def digitsOnly (cs : List Char) : Bool := cs.all Char.isDigit

def noDigitHead : List Char → Bool
  | [] => true
  | c :: _ => !c.isDigit

/-- The anchored `-?\d+` cannot match at the start of `cs`. -/
def noNumStart : List Char → Bool
  | [] => true
  | c :: rest => if c = '-' then noDigitHead rest else !c.isDigit

/-- A fractional continuation `\.\d+` cannot match at the start of `cs`. -/
def noFracStart : List Char → Bool
  | [] => true
  | c :: rest => if c = '.' then noDigitHead rest else true

theorem takeWhile_digits_append {ds rest : List Char}
    (hds : digitsOnly ds = true) (hrest : noDigitHead rest = true) :
    (ds ++ rest).takeWhile Char.isDigit = ds := by
  induction ds with
  | nil =>
      cases rest with
      | nil => rfl
      | cons c t =>
          simp only [noDigitHead, Bool.not_eq_true'] at hrest
          simp [List.takeWhile, hrest]
  | cons c t ih =>
      simp only [digitsOnly, List.all_cons, Bool.and_eq_true] at hds
      simp only [List.cons_append, List.takeWhile, hds.1]
      exact congrArg (c :: ·) (ih (by simpa [digitsOnly] using hds.2))

theorem dropWhile_digits_append {ds rest : List Char}
    (hds : digitsOnly ds = true) (hrest : noDigitHead rest = true) :
    (ds ++ rest).dropWhile Char.isDigit = rest := by
  induction ds with
  | nil =>
      cases rest with
      | nil => rfl
      | cons c t =>
          simp only [noDigitHead, Bool.not_eq_true'] at hrest
          simp [List.dropWhile, hrest]
  | cons c t ih =>
      simp only [digitsOnly, List.all_cons, Bool.and_eq_true] at hds
      simp only [List.cons_append, List.dropWhile, hds.1]
      exact ih (by simpa [digitsOnly] using hds.2)

theorem digit_ne_minus {c : Char} (h : c.isDigit = true) : c ≠ '-' := by
  intro he; subst he; exact absurd h (by decide)

theorem takeWhile_of_noDigitHead {t : List Char} (h : noDigitHead t = true) :
    t.takeWhile Char.isDigit = [] := by
  cases t with
  | nil => rfl
  | cons c r =>
      simp only [noDigitHead, Bool.not_eq_true'] at h
      simp [List.takeWhile, h]

theorem fracContVal_of_noFracStart (base : ℚ) {rest : List Char}
    (h : noFracStart rest = true) : fracContVal base rest = base := by
  cases rest with
  | nil => rfl
  | cons c t =>
      by_cases hc : c = '.'
      · subst hc
        simp only [noFracStart, if_pos rfl] at h
        simp [fracContVal, takeWhile_of_noDigitHead h]
      · simp [fracContVal, hc]

theorem splitSign_signed (sign : Bool) {ds : List Char} (rest : List Char)
    (h1 : ds ≠ []) (h2 : digitsOnly ds = true) :
    splitSign ((if sign then ['-'] else []) ++ (ds ++ rest))
      = (sign, ds ++ rest) := by
  cases ds with
  | nil => exact absurd rfl h1
  | cons d t =>
      simp only [digitsOnly, List.all_cons, Bool.and_eq_true] at h2
      cases sign with
      | true => simp [splitSign]
      | false => simp [splitSign, digit_ne_minus h2.1]

theorem numPrefixVal_int (sign : Bool) (ds rest : List Char)
    (h1 : ds ≠ []) (h2 : digitsOnly ds = true)
    (h3 : noDigitHead rest = true) (h4 : noFracStart rest = true) :
    numPrefixVal ((if sign then ['-'] else []) ++ (ds ++ rest))
      = some ((if sign then (-1 : ℚ) else 1) * (natOfDigits ds : ℚ)) := by
  unfold numPrefixVal
  rw [splitSign_signed sign rest h1 h2]
  simp only [takeWhile_digits_append h2 h3, dropWhile_digits_append h2 h3]
  rw [if_neg h1, fracContVal_of_noFracStart _ h4]
  cases sign <;> simp

theorem numPrefixVal_frac (sign : Bool) (ds fs rest : List Char)
    (h1 : ds ≠ []) (h2 : digitsOnly ds = true)
    (h3 : fs ≠ []) (h4 : digitsOnly fs = true)
    (h5 : noDigitHead rest = true) :
    numPrefixVal ((if sign then ['-'] else []) ++ (ds ++ '.' :: (fs ++ rest)))
      = some ((if sign then (-1 : ℚ) else 1)
          * ((natOfDigits ds : ℚ) + fracOfDigits fs)) := by
  unfold numPrefixVal
  rw [splitSign_signed sign _ h1 h2]
  have hdot : noDigitHead ('.' :: (fs ++ rest)) = true := rfl
  simp only [takeWhile_digits_append h2 hdot, dropWhile_digits_append h2 hdot]
  rw [if_neg h1]
  have hfs : fracContVal (natOfDigits ds) ('.' :: (fs ++ rest))
      = (natOfDigits ds : ℚ) + fracOfDigits fs := by
    simp [fracContVal, takeWhile_digits_append h4 h5, h3]
  rw [hfs]
  cases sign <;> simp

theorem numPrefixVal_noMatch {cs : List Char} (h : noNumStart cs = true) :
    numPrefixVal cs = none := by
  cases cs with
  | nil => rfl
  | cons c t =>
      by_cases hc : c = '-'
      · subst hc
        simp only [noNumStart, if_pos rfl] at h
        simp [numPrefixVal, splitSign, takeWhile_of_noDigitHead h]
      · simp only [noNumStart, if_neg hc, Bool.not_eq_true'] at h
        simp [numPrefixVal, splitSign, hc, List.takeWhile, h]

/-- Claim C8 (amended): `_parse_length` returns the numeric value of the
longest prefix matching an optional MINUS sign, decimal digits and an optional
fractional part, ignoring any trailing unit suffix; a string with no such
prefix (including strings with a leading plus sign, which the source regex
`-?\d+(?:\.\d+)?` rejects) yields the caller-supplied default, and a missing
value yields the default.  No error is raised in any case. -/
theorem c8_parse_length_amended :
    (∀ (d : Option ℚ) (sign : Bool) (ds rest : List Char),
        ds ≠ [] → digitsOnly ds = true → noDigitHead rest = true →
        noFracStart rest = true →
        parseLength (some (String.mk ((if sign then ['-'] else []) ++ (ds ++ rest)))) d
          = some ((if sign then (-1 : ℚ) else 1) * (natOfDigits ds : ℚ)))
  ∧ (∀ (d : Option ℚ) (sign : Bool) (ds fs rest : List Char),
        ds ≠ [] → digitsOnly ds = true → fs ≠ [] → digitsOnly fs = true →
        noDigitHead rest = true →
        parseLength
            (some (String.mk ((if sign then ['-'] else []) ++ (ds ++ '.' :: (fs ++ rest))))) d
          = some ((if sign then (-1 : ℚ) else 1)
              * ((natOfDigits ds : ℚ) + fracOfDigits fs)))
  ∧ (∀ (d : Option ℚ) (s : String), noNumStart s.toList = true →
        parseLength (some s) d = d)
  ∧ (∀ d : Option ℚ, parseLength none d = d) := by
  refine ⟨?_, ?_, ?_, fun d => rfl⟩
  · intro d sign ds rest h1 h2 h3 h4
    simp [parseLength, numPrefixVal_int sign ds rest h1 h2 h3 h4]
  · intro d sign ds fs rest h1 h2 h3 h4 h5
    simp [parseLength, numPrefixVal_frac sign ds fs rest h1 h2 h3 h4 h5]
  · intro d s h
    have hn : numPrefixVal s.data = none := numPrefixVal_noMatch h
    simp [parseLength, hn]

/-- Witness for C8: concrete evaluations — a unit suffix is ignored
(`"12px"` parses to 12), a signed decimal parses exactly, and a
non-numeric string falls back to the supplied default. -/
theorem c8_parse_length_amended_witness :
    parseLength (some "12px") none = some 12 ∧
    parseLength (some "-3.5") none = some (-(7 / 2 : ℚ)) ∧
    parseLength (some "abc") (some 16) = some 16 := by
  refine ⟨?_, ?_, ?_⟩
  · have h := c8_parse_length_amended.1 none false ['1', '2'] ['p', 'x']
      (by decide) (by decide) (by decide) (by decide)
    have hs : String.mk ((if false then ['-'] else []) ++ (['1', '2'] ++ ['p', 'x']))
        = "12px" := rfl
    rw [hs] at h
    rw [h]
    have hn : natOfDigits ['1', '2'] = 12 := by decide
    rw [hn]
    norm_num
  · have h := c8_parse_length_amended.2.1 none true ['3'] ['5'] []
      (by decide) (by decide) (by decide) (by decide) (by decide)
    have hs : String.mk ((if true then ['-'] else []) ++ (['3'] ++ '.' :: (['5'] ++ [])))
        = "-3.5" := rfl
    rw [hs] at h
    rw [h]
    simp only [fracOfDigits]
    norm_num [show natOfDigits ['3'] = 3 from by decide,
      show natOfDigits ['5'] = 5 from by decide]
  · exact c8_parse_length_amended.2.2.1 (some 16) "abc" (by decide)

/-- Counterexample for C8 as frozen: the claim admits an optional sign, but
the source regex only accepts a MINUS sign, so `"+5"` has a numeric prefix in
the claim's grammar yet `_parse_length` returns the default, not 5. -/
theorem c8_plus_sign_counterexample :
    parseLength (some "+5") (some 0) = some 0 ∧
    parseLength (some "+5") (some 0) ≠ some 5 := by
  have h0 : parseLength (some "+5") (some 0) = some 0 := by
    have hn : numPrefixVal ['+', '5'] = none := numPrefixVal_noMatch (by decide)
    simp [parseLength, hn]
  refine ⟨h0, ?_⟩
  rw [h0]
  intro hc
  exact absurd (Option.some.inj hc) (by norm_num)

/-! ### Template table, collection and merge order

`diagramagic` builds the template table as a Python dict: shared external
sources are merged first (in list order), the diagram's own templates last,
and every `dict.update`/assignment lets the later definition win. -/

/-- The template table: name to blueprint children. -/
def TmplMap : Type := String → Option (List XNode)

def tmplEmpty : TmplMap := fun _ => none

/-- `templates[name] = blueprint` (assignment into a dict). -/
def tmplInsert (m : TmplMap) (k : String) (v : List XNode) : TmplMap :=
  fun q => if q = k then some v else m q

/-- Python `dict.update`: bindings of `extra` override those of `base`. -/
def tmplUpdate (base extra : TmplMap) : TmplMap :=
  fun k =>
    match extra k with
    | some v => some v
    | none => base k

def XNode.withChildren : XNode → List XNode → XNode
  | .mk t a tx tl _, cs => .mk t a tx tl cs

/-- One step of `_collect_templates`: a named direct diag:template child is
hoisted into the table (and removed from the child list), a nameless template
is dropped, anything else is kept. -/
def collectTemplatesStep (diagNs : String) (acc : List XNode × TmplMap) (c : XNode) :
    List XNode × TmplMap :=
  if isDiagTag diagNs "template" c then
    match getAttr c (QN.plain "name") with
    | some nm => if nm = "" then acc else (acc.1, tmplInsert acc.2 nm c.children)
    | none => acc
  else (acc.1 ++ [c], acc.2)

/-- `_collect_templates`: returns the root with template children removed and
the collected table.  Deep copies are identities in our value semantics. -/
def collectTemplates (diagNs : String) (root : XNode) : XNode × TmplMap :=
  let r := root.children.foldl (collectTemplatesStep diagNs) ([], tmplEmpty)
  (root.withChildren r.1, r.2)

/-- `_collect_templates_from_sources`: parsed shared sources are folded left
to right; a source whose root is not a diag:diagram raises (modelled as
`none`). -/
def collectTemplatesFromSources (diagNs : String) (sources : List XNode) :
    Option TmplMap :=
  sources.foldlM
    (fun m src =>
      if src.tag = ⟨some diagNs, "diagram"⟩ then
        some (tmplUpdate m (collectTemplates diagNs src).2)
      else none)
    tmplEmpty

/-- The table `diagramagic` uses for instance expansion: shared sources first,
the diagram's own templates last (lines 339-342 of the source). -/
def mergedTemplates (diagNs : String) (sources : List XNode) (root : XNode) :
    Option TmplMap :=
  match collectTemplatesFromSources diagNs sources with
  | none => none
  | some shared => some (tmplUpdate shared (collectTemplates diagNs root).2)

theorem collectTemplatesFromSources_append (diagNs : String)
    (sources : List XNode) (s : XNode) (shared : TmplMap)
    (h : collectTemplatesFromSources diagNs sources = some shared)
    (hs : s.tag = ⟨some diagNs, "diagram"⟩) :
    collectTemplatesFromSources diagNs (sources ++ [s])
      = some (tmplUpdate shared (collectTemplates diagNs s).2) := by
  unfold collectTemplatesFromSources at h ⊢
  rw [List.foldlM_append, h]
  simp [hs]

/-- Claim C5: when a template name is defined both by a shared source and by
the diagram itself, the diagram-local definition is the one in the merged
table; a name not defined locally resolves to the shared table; and appending
one more shared source overrides earlier shared definitions of the same name
(so among shared sources the last occurrence wins). -/
theorem c5_template_precedence :
    (∀ (ns : String) (sources : List XNode) (root : XNode) (m : TmplMap)
        (nm : String),
        mergedTemplates ns sources root = some m →
        (∀ bp, (collectTemplates ns root).2 nm = some bp → m nm = some bp)
      ∧ ((collectTemplates ns root).2 nm = none →
          ∃ shared, collectTemplatesFromSources ns sources = some shared
            ∧ m nm = shared nm))
  ∧ (∀ (ns : String) (sources : List XNode) (s : XNode) (shared : TmplMap)
        (nm : String),
        collectTemplatesFromSources ns sources = some shared →
        s.tag = ⟨some ns, "diagram"⟩ →
        ∃ m2, collectTemplatesFromSources ns (sources ++ [s]) = some m2
          ∧ m2 nm = (match (collectTemplates ns s).2 nm with
                     | some bp => some bp
                     | none => shared nm)) := by
  constructor
  · intro ns sources root m nm hm
    unfold mergedTemplates at hm
    cases hsh : collectTemplatesFromSources ns sources with
    | none => rw [hsh] at hm; exact absurd hm (by simp)
    | some shared =>
        rw [hsh] at hm
        have hm' : m = tmplUpdate shared (collectTemplates ns root).2 :=
          (Option.some.inj hm).symm
        subst hm'
        constructor
        · intro bp hbp
          simp [tmplUpdate, hbp]
        · intro hnone
          exact ⟨shared, rfl, by simp [tmplUpdate, hnone]⟩
  · intro ns sources s shared nm hsh hs
    refine ⟨tmplUpdate shared (collectTemplates ns s).2,
      collectTemplatesFromSources_append ns sources s shared hsh hs, ?_⟩
    simp only [tmplUpdate]

/-! Concrete documents for the C5 witness. -/

def tmplElem (nm : String) (body : List XNode) : XNode :=
  .mk ⟨some "N", "template"⟩ [(QN.plain "name", nm)] "" "" body

def bodyA : XNode := .mk (QN.plain "rect") [(QN.plain "fill", "red")] "" "" []
def bodyB : XNode := .mk (QN.plain "rect") [(QN.plain "fill", "blue")] "" "" []
def bodyC : XNode := .mk (QN.plain "circle") [] "" "" []
def bodyU : XNode := .mk (QN.plain "line") [] "" "" []

def c5srcA : XNode :=
  .mk ⟨some "N", "diagram"⟩ [] "" "" [tmplElem "t" [bodyA], tmplElem "u" [bodyU]]
def c5srcB : XNode :=
  .mk ⟨some "N", "diagram"⟩ [] "" "" [tmplElem "t" [bodyB]]
def c5root : XNode :=
  .mk ⟨some "N", "diagram"⟩ [] "" "" [tmplElem "t" [bodyC]]

/-- Witness for C5: with `t` defined by two shared sources and the diagram,
the merged table maps `t` to the diagram's blueprint; without the local
definition, the second (last) shared source's blueprint wins. -/
theorem c5_template_precedence_witness :
    (∃ m, mergedTemplates "N" [c5srcA, c5srcB] c5root = some m
       ∧ m "t" = some [bodyC] ∧ m "u" = some [bodyU])
  ∧ (∃ m2, collectTemplatesFromSources "N" ([c5srcA] ++ [c5srcB]) = some m2
       ∧ m2 "t" = some [bodyB]) := by
  constructor
  · have hm : mergedTemplates "N" [c5srcA, c5srcB] c5root
        = some (tmplUpdate
            (tmplUpdate (tmplUpdate tmplEmpty (collectTemplates "N" c5srcA).2)
              (collectTemplates "N" c5srcB).2)
            (collectTemplates "N" c5root).2) := rfl
    have h := c5_template_precedence.1 "N" [c5srcA, c5srcB] c5root _ "t" hm
    refine ⟨_, hm, h.1 [bodyC] rfl, ?_⟩
    have hu := c5_template_precedence.1 "N" [c5srcA, c5srcB] c5root _ "u" hm
    have hnone : (collectTemplates "N" c5root).2 "u" = none := rfl
    obtain ⟨shared, hsh, hv⟩ := hu.2 hnone
    rw [hv]
    have hsh' : shared = tmplUpdate (tmplUpdate tmplEmpty (collectTemplates "N" c5srcA).2)
        (collectTemplates "N" c5srcB).2 := by
      have : collectTemplatesFromSources "N" [c5srcA, c5srcB]
          = some (tmplUpdate (tmplUpdate tmplEmpty (collectTemplates "N" c5srcA).2)
              (collectTemplates "N" c5srcB).2) := rfl
      rw [this] at hsh
      exact (Option.some.inj hsh).symm
    subst hsh'
    rfl
  · obtain ⟨m2, hm2, hv⟩ := c5_template_precedence.2 "N" [c5srcA] c5srcB
      (tmplUpdate tmplEmpty (collectTemplates "N" c5srcA).2) "t" rfl rfl
    refine ⟨m2, hm2, ?_⟩
    rw [hv]
    have hb : (collectTemplates "N" c5srcB).2 "t" = some [bodyB] := rfl
    rw [hb]

/-! ### Instance expansion (`_expand_instances_in_tree` and helpers) -/

mutual
/-- `Element.itertext()`: all text content in document order. -/
def iterTextOf : XNode → String
  | .mk _ _ tx _ cs => tx ++ iterTextList cs
def iterTextList : List XNode → String
  | [] => ""
  | c :: rest => iterTextOf c ++ c.tail ++ iterTextList rest
end

/-- `_gather_template_params`: the textual payloads of the instance's direct
diag:param children, keyed by their (non-empty) names, later ones winning. -/
def gatherTemplateParams (diagNs : String) (inst : XNode) : String → Option String :=
  inst.children.foldl
    (fun m c =>
      if isDiagTag diagNs "param" c then
        match getAttr c (QN.plain "name") with
        | some nm =>
            if nm = "" then m
            else fun q => if q = nm then some (pyStrip (iterTextOf c)) else m q
        | none => m
      else m)
    (fun _ => none)

def XNode.withTail : XNode → String → XNode
  | .mk t a tx _ c, tl => .mk t a tx tl c

/-- Append `v` to the tail of the last element of `out` (the mutation
`prev.tail = (prev.tail or "") + value`). -/
def appendTailLast : List XNode → String → List XNode
  | [], _ => []
  | [x], v => [x.withTail (x.tail ++ v)]
  | x :: y :: rest, v => x :: appendTailLast (y :: rest) v

mutual
/-- `_apply_template_params`: every diag:slot descendant is removed and its
parameter value concatenated into the preceding sibling's tail (or the
parent's leading text when the slot is first).  When the preceding original
sibling was itself a slot, the value is written onto the detached slot and is
lost, exactly as in the source. -/
def applyTemplateParams (diagNs : String) (params : String → Option String) :
    XNode → XNode
  | .mk t a tx tl cs =>
      let r := applyParamsGo diagNs params cs none tx []
      .mk t a r.1 tl r.2
/-- The child loop of `_apply_template_params`.  The `prev` argument records
whether there is a preceding original sibling and whether it was a slot. -/
def applyParamsGo (diagNs : String) (params : String → Option String) :
    List XNode → Option Bool → String → List XNode → String × List XNode
  | [], _, ptext, out => (ptext, out)
  | c :: rest, prev, ptext, out =>
      if c.tag = ⟨some diagNs, "slot"⟩ then
        let v :=
          match getAttr c (QN.plain "name") with
          | some nm => (params nm).getD ""
          | none => ""
        match prev with
        | none => applyParamsGo diagNs params rest (some true) (ptext ++ v) out
        | some true => applyParamsGo diagNs params rest (some true) ptext out
        | some false =>
            applyParamsGo diagNs params rest (some true) ptext (appendTailLast out v)
      else
        applyParamsGo diagNs params rest (some false) ptext
          (out ++ [applyTemplateParams diagNs params c])
end

/-- `_instantiate_template`: a missing/empty template attribute, an unknown
template name, or an empty blueprint all yield the empty expansion; otherwise
the blueprint children are cloned, the instance's attributes (except
`template`) copied onto every top-level clone, and slots substituted. -/
def instantiateTemplate (diagNs : String) (inst : XNode) (templates : TmplMap) :
    List XNode :=
  match getAttr inst (QN.plain "template") with
  | none => []
  | some tn =>
      if tn = "" then []
      else
        match templates tn with
        | none => []
        | some bp =>
            if bp = [] then []
            else
              let params := gatherTemplateParams diagNs inst
              bp.map (fun clone =>
                applyTemplateParams diagNs params
                  (inst.attrs.foldl
                    (fun c kv =>
                      if kv.1 = QN.plain "template" then c else c.setAttr kv.1 kv.2)
                    clone))

mutual
/-- `_expand_instances_in_tree`.  Expansion recurses into the clones, which
are not subterms of the input, so the Python function can recurse forever on a
self-referential template (ending in a `RecursionError`); the `fuel` argument
makes that recursion depth explicit and is decremented only when recursing
into freshly instantiated clones. -/
def expandInstancesInTree (diagNs : String) (templates : TmplMap) (fuel : ℕ) :
    XNode → XNode
  | .mk t a tx tl cs => .mk t a tx tl (expandInstancesChildren diagNs templates fuel cs)
def expandInstancesChildren (diagNs : String) (templates : TmplMap) (fuel : ℕ) :
    List XNode → List XNode
  | [] => []
  | c :: rest =>
      if c.tag = ⟨some diagNs, "instance"⟩ then
        (match fuel with
         | 0 => []
         | f + 1 =>
             (instantiateTemplate diagNs c templates).map
               (expandInstancesInTree diagNs templates f))
          ++ expandInstancesChildren diagNs templates fuel rest
      else
        expandInstancesInTree diagNs templates fuel c
          :: expandInstancesChildren diagNs templates fuel rest
end

theorem expandInstancesChildren_append (diagNs : String) (templates : TmplMap)
    (fuel : ℕ) (l1 l2 : List XNode) :
    expandInstancesChildren diagNs templates fuel (l1 ++ l2)
      = expandInstancesChildren diagNs templates fuel l1
        ++ expandInstancesChildren diagNs templates fuel l2 := by
  induction l1 with
  | nil => rw [List.nil_append, expandInstancesChildren.eq_1, List.nil_append]
  | cons c rest ih =>
      cases fuel with
      | zero =>
          rw [List.cons_append, expandInstancesChildren.eq_2,
            expandInstancesChildren.eq_2, ih]
          by_cases hc : c.tag = ⟨some diagNs, "instance"⟩
          · simp only [if_pos hc, List.append_assoc]
          · simp only [if_neg hc, List.cons_append]
      | succ f =>
          rw [List.cons_append, expandInstancesChildren.eq_3,
            expandInstancesChildren.eq_3, ih]
          by_cases hc : c.tag = ⟨some diagNs, "instance"⟩
          · simp only [if_pos hc, List.append_assoc]
          · simp only [if_neg hc, List.cons_append]

/-- Claim C6: a diag:instance whose template attribute names a template absent
from the table expands to the empty sequence: `_instantiate_template` returns
no clones and raises no error, and the surrounding child list is rewritten
with the instance simply removed, so the compile continues. -/
theorem c6_unknown_template_empty (ns : String) (templates : TmplMap) (fuel : ℕ)
    (inst : XNode) (pre post : List XNode) (tn : String)
    (htag : inst.tag = ⟨some ns, "instance"⟩)
    (hattr : getAttr inst (QN.plain "template") = some tn)
    (hne : tn ≠ "")
    (hmiss : templates tn = none) :
    instantiateTemplate ns inst templates = []
  ∧ expandInstancesChildren ns templates fuel (pre ++ inst :: post)
      = expandInstancesChildren ns templates fuel pre
        ++ expandInstancesChildren ns templates fuel post := by
  have hinst : instantiateTemplate ns inst templates = [] := by
    simp only [instantiateTemplate, hattr, if_neg hne, hmiss]
  refine ⟨hinst, ?_⟩
  rw [expandInstancesChildren_append]
  have hmid : expandInstancesChildren ns templates fuel (inst :: post)
      = expandInstancesChildren ns templates fuel post := by
    cases fuel with
    | zero => rw [expandInstancesChildren.eq_2, if_pos htag, List.nil_append]
    | succ f =>
        rw [expandInstancesChildren.eq_3, if_pos htag, hinst]
        simp
  rw [hmid]

/-- Witness for C6: a concrete diagram fragment whose instance references the
unknown template `ghost` expands to just its siblings. -/
theorem c6_unknown_template_empty_witness :
    instantiateTemplate "N"
        (.mk ⟨some "N", "instance"⟩ [(QN.plain "template", "ghost")] "" "" [])
        tmplEmpty = []
  ∧ expandInstancesChildren "N" tmplEmpty 7
      ([bodyA] ++ (.mk ⟨some "N", "instance"⟩ [(QN.plain "template", "ghost")] "" "" []) :: [bodyB])
      = expandInstancesChildren "N" tmplEmpty 7 [bodyA]
        ++ expandInstancesChildren "N" tmplEmpty 7 [bodyB] :=
  c6_unknown_template_empty "N" tmplEmpty 7
    (.mk ⟨some "N", "instance"⟩ [(QN.plain "template", "ghost")] "" "" [])
    [bodyA] [bodyB] "ghost" rfl rfl (by decide) rfl

/-! ### Include expansion bookkeeping

`_expand_single_include` performs its checks in a fixed order; everything the
filesystem decides (path canonicalisation, existence, readability, XML
well-formedness, the root tag of the included file) enters as parameters. -/

inductive IncludeErr where
  | args | depth | cycle | notFound | parseFail | rootFail | idCollision
deriving DecidableEq, Repr

/-- The check sequence of `_expand_single_include` up to the recursive
compile: each branch mirrors one `raise` in source order (E_INCLUDE_ARGS,
E_INCLUDE_DEPTH, E_INCLUDE_CYCLE, E_INCLUDE_NOT_FOUND for both a missing file
and a failed read, E_INCLUDE_PARSE, E_INCLUDE_ROOT). -/
def expandSingleIncludeStatus (includeNode : XNode) (resolvedNorm : String)
    (stack : List String) (depth maxDepth : ℕ)
    (fileExists readOk parseOk rootIsDiagram : Bool) : Except IncludeErr Unit :=
  let src := pyStrip ((getAttr includeNode (QN.plain "src")).getD "")
  if src = "" then .error .args
  else
    let x := parseLength (getAttr includeNode (QN.plain "x")) (some 0)
    let y := parseLength (getAttr includeNode (QN.plain "y")) (some 0)
    let scale := parseLength (getAttr includeNode (QN.plain "scale")) (some 1)
    if x = none ∨ y = none ∨ scale = none ∨ scale.getD 1 ≤ 0 then .error .args
    else if maxDepth ≤ depth then .error .depth
    else if resolvedNorm ∈ stack then .error .cycle
    else if !fileExists then .error .notFound
    else if !readOk then .error .notFound
    else if !parseOk then .error .parseFail
    else if !rootIsDiagram then .error .rootFail
    else .ok ()

theorem parseLength_default_isSome (v : Option String) (q : ℚ) :
    ∃ r, parseLength v (some q) = some r := by
  cases v with
  | none => exact ⟨q, rfl⟩
  | some s =>
      cases h : numPrefixVal s.toList with
      | none =>
          refine ⟨q, ?_⟩
          have h2 : numPrefixVal s.data = none := h
          simp [parseLength, h2]
      | some w =>
          refine ⟨w, ?_⟩
          have h2 : numPrefixVal s.data = some w := h
          simp [parseLength, h2]

/-- Claim C7 (amended): re-entering a canonicalized path that is already on
the include recursion stack aborts with E_INCLUDE_CYCLE, provided the include
arguments are valid and the maximum include depth has not yet been reached;
when the depth cap is already hit, E_INCLUDE_DEPTH is raised first even if the
path is on the stack. -/
theorem c7_include_cycle_amended (n : XNode) (resolvedNorm : String)
    (stack : List String) (depth maxDepth : ℕ)
    (fe rd pok rook : Bool) (sc : ℚ)
    (hsrc : pyStrip ((getAttr n (QN.plain "src")).getD "") ≠ "")
    (hscale : parseLength (getAttr n (QN.plain "scale")) (some 1) = some sc)
    (hpos : 0 < sc)
    (hdepth : depth < maxDepth)
    (hmem : resolvedNorm ∈ stack) :
    expandSingleIncludeStatus n resolvedNorm stack depth maxDepth fe rd pok rook
      = .error .cycle := by
  unfold expandSingleIncludeStatus
  rw [if_neg hsrc]
  obtain ⟨x0, hx⟩ := parseLength_default_isSome (getAttr n (QN.plain "x")) 0
  obtain ⟨y0, hy⟩ := parseLength_default_isSome (getAttr n (QN.plain "y")) 0
  rw [hx, hy, hscale]
  have hargs : ¬((some x0 : Option ℚ) = none ∨ (some y0 : Option ℚ) = none
      ∨ (some sc : Option ℚ) = none ∨ (some sc : Option ℚ).getD 1 ≤ 0) := by
    simp [not_le.mpr hpos]
  rw [if_neg hargs, if_neg (not_le.mpr hdepth), if_pos hmem]

/-- Witness for C7: the cycle a to b back to a is detected at depth 2 with the
default cap of 10 and reported as E_INCLUDE_CYCLE. -/
theorem c7_include_cycle_amended_witness :
    expandSingleIncludeStatus
        (.mk ⟨some "N", "include"⟩ [(QN.plain "src", "a.svgpp")] "" "" [])
        "/a" ["/a", "/b"] 2 10 true true true true
      = .error .cycle :=
  c7_include_cycle_amended
    (.mk ⟨some "N", "include"⟩ [(QN.plain "src", "a.svgpp")] "" "" [])
    "/a" ["/a", "/b"] 2 10 true true true true 1
    (by decide) rfl (by norm_num) (by decide) (by decide)

/-- Counterexample for C7 as frozen: after a chain of ten distinct includes,
an include whose canonicalized path is already on the stack aborts with
E_INCLUDE_DEPTH, not E_INCLUDE_CYCLE, because the depth check precedes the
cycle check in `_expand_single_include`. -/
theorem c7_depth_preempts_cycle_counterexample :
    ("/f1" ∈ ["/f1", "/f2", "/f3", "/f4", "/f5", "/f6", "/f7", "/f8", "/f9", "/f10"])
  ∧ expandSingleIncludeStatus
        (.mk ⟨some "N", "include"⟩ [(QN.plain "src", "f1.svgpp")] "" "" [])
        "/f1" ["/f1", "/f2", "/f3", "/f4", "/f5", "/f6", "/f7", "/f8", "/f9", "/f10"]
        10 10 true true true true
      = .error .depth
  ∧ (Except.error IncludeErr.depth : Except IncludeErr Unit)
      ≠ .error .cycle := by
  refine ⟨by decide, ?_, by decide⟩
  rfl

/-! ### The include walk and the post-include id-uniqueness check

`_expand_includes_in_tree` reports whether any diag:include was found;
`diagramagic` runs `_ensure_unique_ids` only when it was (lines 346-356).
Expansion of a single include performs file I/O and a recursive compile, so it
enters as the oracle `expandOne`. -/

mutual
/-- `_expand_includes_in_tree` (returns the rewritten node and the found
flag). -/
def expandIncludesInTree (diagNs : String) (expandOne : XNode → XNode) :
    XNode → XNode × Bool
  | .mk t a tx tl cs =>
      let r := expandIncludesChildren diagNs expandOne cs
      (.mk t a tx tl r.1, r.2)
/-- The child loop of `_expand_includes_in_tree`: an include child is replaced
by its expansion (and not re-walked); any other child is walked recursively. -/
def expandIncludesChildren (diagNs : String) (expandOne : XNode → XNode) :
    List XNode → List XNode × Bool
  | [] => ([], false)
  | c :: rest =>
      if c.tag = ⟨some diagNs, "include"⟩ then
        let r := expandIncludesChildren diagNs expandOne rest
        (expandOne c :: r.1, true)
      else
        let rc := expandIncludesInTree diagNs expandOne c
        let rr := expandIncludesChildren diagNs expandOne rest
        (rc.1 :: rr.1, rc.2 || rr.2)
end

mutual
/-- Does any element of the tree (the root aside) carry the diag:include tag? -/
def hasIncludeInTree (diagNs : String) : XNode → Bool
  | .mk _ _ _ _ cs => hasIncludeInChildren diagNs cs
def hasIncludeInChildren (diagNs : String) : List XNode → Bool
  | [] => false
  | c :: rest =>
      (c.tag = ⟨some diagNs, "include"⟩) || hasIncludeInTree diagNs c
        || hasIncludeInChildren diagNs rest
end

mutual
/-- The `id` attributes of a tree in document order (`root.iter()`), empty
ones skipped, as scanned by `_ensure_unique_ids`. -/
def collectIdsPre : XNode → List String
  | .mk _ a _ _ cs =>
      (match a.lookup (QN.plain "id") with
       | some i => if i = "" then [] else [i]
       | none => []) ++ collectIdsList cs
def collectIdsList : List XNode → List String
  | [] => []
  | c :: rest => collectIdsPre c ++ collectIdsList rest
end

def listHasDup : List String → Bool
  | [] => false
  | x :: rest => rest.contains x || listHasDup rest

/-- `_ensure_unique_ids`: raises E_INCLUDE_ID_COLLISION exactly when some id
occurs twice. -/
def ensureUniqueIds (root : XNode) : Except IncludeErr Unit :=
  if listHasDup (collectIdsPre root) then .error .idCollision else .ok ()

/-- Lines 345-356 of `diagramagic`: expand includes, then assert id
uniqueness only when an include was found. -/
def includePhase (diagNs : String) (expandOne : XNode → XNode) (root : XNode) :
    Except IncludeErr XNode :=
  let r := expandIncludesInTree diagNs expandOne root
  if r.2 then
    match ensureUniqueIds r.1 with
    | .error e => .error e
    | .ok _ => .ok r.1
  else .ok r.1

mutual
theorem expandIncludes_noInclude : ∀ (ns : String) (ex : XNode → XNode) (t : XNode),
    hasIncludeInTree ns t = false → expandIncludesInTree ns ex t = (t, false)
  | ns, ex, .mk tg a tx tl cs, h => by
      have hc : hasIncludeInChildren ns cs = false := by
        simpa [hasIncludeInTree] using h
      have hr := expandIncludesChildren_noInclude ns ex cs hc
      simp [expandIncludesInTree, hr]
theorem expandIncludesChildren_noInclude :
    ∀ (ns : String) (ex : XNode → XNode) (cs : List XNode),
    hasIncludeInChildren ns cs = false → expandIncludesChildren ns ex cs = (cs, false)
  | ns, ex, [], _ => rfl
  | ns, ex, c :: rest, h => by
      rw [hasIncludeInChildren] at h
      simp only [Bool.or_eq_false_iff, decide_eq_false_iff_not] at h
      obtain ⟨⟨h1, h2⟩, h3⟩ := h
      have ht := expandIncludes_noInclude ns ex c h2
      have hr := expandIncludesChildren_noInclude ns ex rest h3
      simp [expandIncludesChildren, h1, ht, hr]
end

/-- Claim C9: the post-include id-uniqueness assertion runs only when the
document actually contained a diag:include; a document with no includes is
passed through unchanged and never raises E_INCLUDE_ID_COLLISION, duplicate
ids included. -/
theorem c9_no_include_skips_id_check (ns : String) (ex : XNode → XNode)
    (t : XNode) (h : hasIncludeInTree ns t = false) :
    includePhase ns ex t = .ok t := by
  simp [includePhase, expandIncludes_noInclude ns ex t h]

/-- A diagram with two elements sharing the id `dup` and no includes. -/
def c9doc : XNode :=
  .mk ⟨some "N", "diagram"⟩ [] "" ""
    [.mk (QN.plain "rect") [(QN.plain "id", "dup")] "" "" [],
     .mk (QN.plain "circle") [(QN.plain "id", "dup")] "" "" []]

/-- Witness for C9: the duplicate-id document without includes compiles this
phase successfully (the duplicate ids pass through unchecked). -/
theorem c9_no_include_skips_id_check_witness :
    hasIncludeInTree "N" c9doc = false
  ∧ listHasDup (collectIdsPre c9doc) = true
  ∧ includePhase "N" id c9doc = .ok c9doc :=
  ⟨rfl, rfl, c9_no_include_skips_id_check "N" id c9doc rfl⟩

/-! ### Class-style rules, font resolution and text helpers -/

def SVG_NS : String := "http://www.w3.org/2000/svg"

def svgQ (tag : String) : QN := ⟨some SVG_NS, tag⟩

/-- Measured bounding box (left, top, right, bottom). -/
structure BBox where
  l : ℚ
  t : ℚ
  r : ℚ
  b : ℚ
deriving DecidableEq, Repr

/-- `_ClassStyleRule`. -/
structure ClassStyleRule where
  className : String
  declarations : List (String × String)
deriving Repr

/-- External collaborators of the renderer: the resvg geometry oracle
(`_measure_svg` wrapped by `_measure_rendered_node`) and the font backend
(`_TextMeasurer.metrics` / `_estimate_text_width`), per the spec's interface
contracts. -/
structure RenderOracle where
  measureNode : XNode → ℚ × ℚ × Option BBox
  metrics : ℚ → Option String → Option String → ℚ × ℚ × ℚ
  textWidth : String → ℚ → Option String → Option String → ℚ

def DEFAULT_FONT_FAMILY : String := "sans-serif"

def getA (attrs : List (QN × String)) (k : QN) : Option String :=
  attrs.lookup k

/-- Python `s.split()` (whitespace runs, empties dropped). -/
def splitWsGo : List Char → List Char → List String
  | [], acc => if acc = [] then [] else [String.mk acc.reverse]
  | c :: rest, acc =>
      if c.isWhitespace then
        (if acc = [] then [] else [String.mk acc.reverse]) ++ splitWsGo rest []
      else splitWsGo rest (c :: acc)

def pySplitWs (s : String) : List String := splitWsGo s.toList []

/-- `_class_style_value`: scan the ordered rules, the last match wins. -/
def classStyleValueA (attrs : List (QN × String)) (rules : List ClassStyleRule)
    (prop : String) : Option String :=
  let classAttr := (getA attrs (QN.plain "class")).getD ""
  if classAttr = "" then none
  else
    let classNames := pySplitWs classAttr
    if classNames = [] then none
    else
      rules.foldl
        (fun resolved rule =>
          if classNames.contains rule.className then
            match rule.declarations.lookup prop with
            | some v => some v
            | none => resolved
          else resolved)
        none

/-- The ASCII apostrophe. -/
def quoteChar : Char := Char.ofNat 39

/-- `_strip_quotes`. -/
def pyStripQuotes (s : String) : String :=
  let cs := s.toList
  match cs.head?, cs.getLast? with
  | some h, some l =>
      if (h = '"' ∧ l = '"') ∨ (h = quoteChar ∧ l = quoteChar) then
        String.mk (cs.drop 1).dropLast
      else s
  | _, _ => s

/-- Try to match `LIT\s*(RUN+)` at the head of `cs` (one regex position). -/
def tryCaptureAt (lit : List Char) (good : Char → Bool) (cs : List Char) :
    Option (List Char) :=
  if lit.isPrefixOf cs then
    let rest := (cs.drop lit.length).dropWhile Char.isWhitespace
    let run := rest.takeWhile good
    if run = [] then none else some run
  else none

/-- `re.search` for the simple patterns the source uses
(`font-size:\s*([0-9.]+)` and `font-family:\s*([^;]+)`): leftmost position
where the literal, optional whitespace and a non-empty run match. -/
def searchCapture (lit : List Char) (good : Char → Bool) : List Char → Option (List Char)
  | [] => none
  | c :: rest =>
      match tryCaptureAt lit good (c :: rest) with
      | some r => some r
      | none => searchCapture lit good rest

/-- Python `float()` restricted to `[0-9.]+` runs (what the font-size capture
can produce): at most one dot and at least one digit. -/
def ratOfNumRun (cs : List Char) : Option ℚ :=
  let intPart := cs.takeWhile Char.isDigit
  let rest := cs.dropWhile Char.isDigit
  match rest with
  | [] => if intPart = [] then none else some (natOfDigits intPart)
  | c :: t =>
      if c = '.' then
        let frac := t.takeWhile Char.isDigit
        let rest2 := t.dropWhile Char.isDigit
        if rest2 = [] then
          if intPart = [] ∧ frac = [] then none
          else some ((natOfDigits intPart : ℚ) + fracOfDigits frac)
        else none
      else none

/-- `_infer_font_size`: font-size attribute, inline style, class rules, 16.
A malformed style run such as `1.2.3` makes Python's `float()` raise and the
compile abort; that abort is modelled as 0 here and is outside every claim. -/
def inferFontSizeA (attrs : List (QN × String)) (rules : List ClassStyleRule) : ℚ :=
  match getA attrs (QN.plain "font-size") with
  | some fs => (parseLength (some fs) (some 16)).getD 16
  | none =>
      let style := (getA attrs (QN.plain "style")).getD ""
      match (if style = "" then none
             else searchCapture "font-size:".toList (fun c => c.isDigit || c = '.')
               style.toList) with
      | some run => (ratOfNumRun run).getD 0
      | none =>
          match classStyleValueA attrs rules "font-size" with
          | some v =>
              if v = "" then 16
              else
                match parseLength (some v) none with
                | some p => p
                | none => 16
          | none => 16

/-- Python `a or b` over optional strings (empty counts as absent). -/
def orOpt : Option String → Option String → Option String
  | some s, b => if s = "" then b else some s
  | none, b => b

/-- `_font_family_info`: (family, explicit font path).  `Path.expanduser` only
rewrites a leading tilde and is modelled as the identity. -/
def fontFamilyInfoA (attrs : List (QN × String)) (diagNs : String)
    (rules : List ClassStyleRule) : Option String × Option String :=
  let diagFontPath0 := (getA attrs ⟨some diagNs, "font-path"⟩).getD ""
  let diagFontPath := if diagFontPath0 = "" then none else some diagFontPath0
  let diagFamily := (getA attrs ⟨some diagNs, "font-family"⟩).getD ""
  let fam0 := (getA attrs (QN.plain "font-family")).getD ""
  let fam1 := if fam0 = "" then diagFamily else fam0
  let fam2 :=
    if fam1 = "" then
      let style := (getA attrs (QN.plain "style")).getD ""
      match (if style = "" then none
             else searchCapture "font-family:".toList (fun c => !(c = ';'))
               style.toList) with
      | some run => String.mk run
      | none => ""
    else fam1
  let fam3 := if fam2 = "" then (classStyleValueA attrs rules "font-family").getD "" else fam2
  let famFinal := if fam3 = "" then none else some (pyStripQuotes (pyStrip fam3))
  (famFinal, diagFontPath)

/-- `_filtered_attrib`: drop every diag-namespaced attribute key. -/
def filteredA (attrs : List (QN × String)) (diagNs : String) : List (QN × String) :=
  attrs.filter (fun kv => !(kv.1.ns == some diagNs))

mutual
/-- `_clone_without_diag`: a deep copy with diag-namespaced ATTRIBUTES removed
everywhere; element tags (including diag-namespaced child elements) are kept
untouched. -/
def cloneWithoutDiag (diagNs : String) : XNode → XNode
  | .mk t a tx tl cs => .mk t (filteredA a diagNs) tx tl (cloneWithoutDiagList diagNs cs)
def cloneWithoutDiagList (diagNs : String) : List XNode → List XNode
  | [] => []
  | c :: rest => cloneWithoutDiag diagNs c :: cloneWithoutDiagList diagNs rest
end

/-- `_apply_font_attribute`. -/
def applyFontAttribute (n : XNode) (family : Option String) : XNode :=
  match family with
  | none => n
  | some f =>
      if f = "" then n
      else
        match getAttr n (QN.plain "font-family") with
        | some _ => n
        | none => n.setAttr (QN.plain "font-family") f

/-- `_fmt` serialises a float (integers plain, else three decimals with
trailing zeros stripped); no claim inspects formatted attribute strings, so
the exact decimal rendering is abstracted to `toString`. -/
def fmtQ (q : ℚ) : String := toString q

/-- `_ensure_text_baseline`. -/
def ensureTextBaseline (n : XNode) (ascent : ℚ) : XNode :=
  match getAttr n (QN.plain "y") with
  | some _ => n
  | none => n.setAttr (QN.plain "y") (fmtQ ascent)

/-- `_text_bbox`. -/
def textBBoxA (attrs : List (QN × String)) (width height ascent : ℚ) : BBox :=
  let x := (parseLength (getA attrs (QN.plain "x")) (some 0)).getD 0
  let baseline := (parseLength (getA attrs (QN.plain "y")) (some 0)).getD 0
  ⟨x, baseline - ascent, x + width, baseline - ascent + height⟩

/-- Accumulating loop splitting a string into maximal whitespace and
non-whitespace runs. -/
def chunkWsGo : List Char → Bool → List Char → List String
  | [], _, acc => if acc = [] then [] else [String.mk acc.reverse]
  | c :: rest, inWs, acc =>
      if c.isWhitespace = inWs then chunkWsGo rest inWs (c :: acc)
      else
        (if acc = [] then [] else [String.mk acc.reverse])
          ++ chunkWsGo rest c.isWhitespace [c]

/-- `re.split(r"(\s+)", text)`: maximal whitespace and non-whitespace runs in
order (no empty chunks arise after the initial strip). -/
def chunkWs : List Char → List String
  | [] => []
  | c :: rest => chunkWsGo (c :: rest) c.isWhitespace []

/-- The greedy packing loop of `_wrap_lines`. -/
def wrapLinesGo (oc : RenderOracle) (fontSize : ℚ) (fam path : Option String)
    (limit : ℚ) : List String → String → List String
  | [], current => if current = "" then [] else [pyStrip current]
  | chunk :: rest, current =>
      let candidate := if current = "" then chunk else current ++ chunk
      if oc.textWidth (pyStrip candidate) fontSize fam path ≤ limit then
        wrapLinesGo oc fontSize fam path limit rest candidate
      else
        (if current = "" then [] else [pyStrip current])
          ++ wrapLinesGo oc fontSize fam path limit rest (pyStrip chunk)

/-- `_wrap_lines`. -/
def wrapLines (oc : RenderOracle) (fontSize : ℚ) (fam path : Option String)
    (text : String) (limit : ℚ) : List String :=
  let ls := wrapLinesGo oc fontSize fam path limit (chunkWs (pyStrip text).toList) ""
  if ls = [] then [""] else ls

def mkTspan (baseX dy txt : String) : XNode :=
  .mk (svgQ "tspan") [(QN.plain "x", baseX), (QN.plain "dy", dy)] txt "" []

def mkTspans (baseX : String) : List String → Bool → List XNode
  | [], _ => []
  | l :: rest, isFirst =>
      mkTspan baseX (if isFirst then "0" else "1.2em") l
        :: mkTspans baseX rest false

/-! ### Flex layout arithmetic (`_layout_column` / `_layout_row`) -/

/-- Python `max(iterable, default=d)`. -/
def listMaxD (l : List ℚ) (d : ℚ) : ℚ :=
  match l with
  | [] => d
  | x :: xs => xs.foldl max x

def entryWidths (entries : List (XNode × ℚ × ℚ)) : List ℚ :=
  entries.map (fun e => e.2.1)

def entryHeights (entries : List (XNode × ℚ × ℚ)) : List ℚ :=
  entries.map (fun e => e.2.2)

def maxChildWidth (entries : List (XNode × ℚ × ℚ)) : ℚ :=
  listMaxD (entryWidths entries) 0

def mkTranslate (x y : ℚ) : String :=
  "translate(" ++ fmtQ x ++ ", " ++ fmtQ y ++ ")"

def wrapChild (x y : ℚ) (child : XNode) : XNode :=
  .mk (svgQ "g") [(QN.plain "transform", mkTranslate x y)] "" "" [child]

/-- The vertical stacking loop of `_layout_column`: wrappers plus the final
cursor. -/
def columnStack (padding gap : ℚ) (yCursor : ℚ) :
    List (XNode × ℚ × ℚ) → List XNode × ℚ
  | [] => ([], yCursor)
  | (child, _, h) :: rest =>
      let r := columnStack padding gap (yCursor + h + gap) rest
      (wrapChild padding yCursor child :: r.1, r.2)

/-- The interior width budget `max(hint - 2*padding, 0)`. -/
def interiorTargetOf (target : Option ℚ) (padding : ℚ) : Option ℚ :=
  target.map (fun w => max (w - 2 * padding) 0)

/-- The final clamp `max(total_width, target)` applied when an explicit or
inherited total width is present. -/
def applyTargetWidth (w0 : ℚ) (target : Option ℚ) : ℚ :=
  match target with
  | some w => max w0 w
  | none => w0

def colInteriorWidth (entries : List (XNode × ℚ × ℚ)) (target : Option ℚ)
    (padding : ℚ) : ℚ :=
  match interiorTargetOf target padding with
  | some t => max t (maxChildWidth entries)
  | none => maxChildWidth entries

/-- The emitted total width of a column flex. -/
def colTotalWidth (entries : List (XNode × ℚ × ℚ)) (target : Option ℚ)
    (padding : ℚ) : ℚ :=
  applyTargetWidth (colInteriorWidth entries target padding + 2 * padding) target

/-- `_layout_column`: wrapped children, total width, total height. -/
def layoutColumn (entries : List (XNode × ℚ × ℚ)) (target : Option ℚ)
    (padding gap : ℚ) : List XNode × ℚ × ℚ :=
  let stacked := columnStack padding gap padding entries
  let yFinal := if entries = [] then stacked.2 else stacked.2 - gap
  let interiorHeight := max (yFinal - padding) 0
  let totalHeight := interiorHeight + 2 * padding
  (stacked.1, colTotalWidth entries target padding, totalHeight)

/-- The horizontal flow loop of `_layout_row`. -/
def rowFlow (padding gap : ℚ) (xCursor : ℚ) :
    List (XNode × ℚ × ℚ) → List XNode
  | [] => []
  | (child, w, _) :: rest =>
      wrapChild xCursor padding child :: rowFlow padding gap (xCursor + w + gap) rest

/-- `natural_width`: the sum of the child widths plus the inter-child gaps. -/
def rowNaturalWidth (entries : List (XNode × ℚ × ℚ)) (gap : ℚ) : ℚ :=
  (entryWidths entries).sum
    + (if entries = [] then 0 else gap * ((entries.length - 1 : ℕ) : ℚ))

def rowInteriorWidth (entries : List (XNode × ℚ × ℚ)) (target : Option ℚ)
    (padding gap : ℚ) : ℚ :=
  match interiorTargetOf target padding with
  | some t => max t (rowNaturalWidth entries gap)
  | none => rowNaturalWidth entries gap

/-- The emitted total width of a row flex. -/
def rowTotalWidth (entries : List (XNode × ℚ × ℚ)) (target : Option ℚ)
    (padding gap : ℚ) : ℚ :=
  applyTargetWidth (rowInteriorWidth entries target padding gap + 2 * padding) target

/-- `_layout_row`. -/
def layoutRow (entries : List (XNode × ℚ × ℚ)) (target : Option ℚ)
    (padding gap : ℚ) : List XNode × ℚ × ℚ :=
  let maxHeight := listMaxD (entryHeights entries) 0
  let totalHeight := maxHeight + 2 * padding
  (rowFlow padding gap padding entries, rowTotalWidth entries target padding gap, totalHeight)

/-- The direction dispatch of `_render_flex` (anything but `row` stacks as a
column). -/
def flexSizes (direction : String) (entries : List (XNode × ℚ × ℚ))
    (target : Option ℚ) (padding gap : ℚ) : List XNode × ℚ × ℚ :=
  if direction = "row" then layoutRow entries target padding gap
  else layoutColumn entries target padding gap

def optTruthy : Option String → Bool
  | some s => s ≠ ""
  | none => false

/-- The background `<rect>` of `_render_flex`. -/
def mkBgRect (width height : ℚ) (bgClass bgStyle : Option String) : XNode :=
  let a0 := [(QN.plain "x", "0"), (QN.plain "y", "0"),
             (QN.plain "width", fmtQ width), (QN.plain "height", fmtQ height)]
  let a1 := if optTruthy bgClass then a0 ++ [(QN.plain "class", bgClass.getD "")] else a0
  let a2 := if optTruthy bgStyle then a1 ++ [(QN.plain "style", bgStyle.getD "")] else a1
  .mk (svgQ "rect") a2 "" "" []

/-! ### The generic renderer (`_render_node` and friends) -/

/-- The attribute-parsing half of `_render_flex`. -/
structure FlexParams where
  direction : String
  gap : ℚ
  padding : ℚ
  target : Option ℚ
  x : ℚ
  y : ℚ
  bgClass : Option String
  bgStyle : Option String

def flexParams (attrs : List (QN × String)) (wrapHint : Option ℚ) : FlexParams :=
  let widthAttr := parseLength (getA attrs (QN.plain "width")) none
  { direction := pyLower (pyStrip ((getA attrs (QN.plain "direction")).getD "column"))
    gap := (parseLength (getA attrs (QN.plain "gap")) (some 0)).getD 0
    padding := (parseLength (getA attrs (QN.plain "padding")) (some 0)).getD 0
    target := match widthAttr with | some w => some w | none => wrapHint
    x := (parseLength (getA attrs (QN.plain "x")) (some 0)).getD 0
    y := (parseLength (getA attrs (QN.plain "y")) (some 0)).getD 0
    bgClass := getA attrs (QN.plain "background-class")
    bgStyle := getA attrs (QN.plain "background-style") }

/-- The assembly half of `_render_flex`: passthrough attributes (diag
namespace stripped, control attributes consumed, foreign keys reduced to
their local name), arrangement of the measured child entries, background rect
insertion, the translate transform and the reported bbox. -/
def renderFlexAssemble (diagNs : String) (attrs : List (QN × String))
    (p : FlexParams) (entries : List (XNode × ℚ × ℚ)) :
    Option XNode × ℚ × ℚ × Option BBox :=
  let gAttrs :=
    attrs.foldl
      (fun acc kv =>
        if kv.1.ns = some diagNs then acc
        else if ["x", "y", "width", "direction", "gap", "padding",
            "background-class", "background-style"].contains kv.1.name then acc
        else setAttrList acc (QN.plain kv.1.name) kv.2)
      [(QN.plain "transform", mkTranslate p.x p.y)]
  let arranged := flexSizes p.direction entries p.target p.padding p.gap
  let width := arranged.2.1
  let height := arranged.2.2
  let children :=
    if optTruthy p.bgClass || optTruthy p.bgStyle then
      mkBgRect width height p.bgClass p.bgStyle :: arranged.1
    else arranged.1
  let g := XNode.mk (svgQ "g") gAttrs "" "" children
  (some g, width, height, some ⟨p.x, p.y, p.x + width, p.y + height⟩)

/-- `_render_text` (on the components of the text element). -/
def renderTextCore (oc : RenderOracle) (diagNs : String) (wrapHint : Option ℚ)
    (famIn pathIn : Option String) (rules : List ClassStyleRule)
    (tg : QN) (attrs : List (QN × String)) (tx tl : String) (cs : List XNode) :
    Option XNode × ℚ × ℚ × Option BBox :=
  let wrap : Bool := pyLower ((getA attrs ⟨some diagNs, "wrap"⟩).getD "false") == "true"
  let wrapHint2 :=
    match getA attrs ⟨some diagNs, "max-width"⟩ with
    | some mw => parseLength (some mw) wrapHint
    | none => wrapHint
  let fontSize := inferFontSizeA attrs rules
  let fam0 := fontFamilyInfoA attrs diagNs rules
  let fontFamily1 := orOpt fam0.1 famIn
  let fontPath := orOpt fam0.2 pathIn
  let fontFamily := orOpt fontFamily1 (some DEFAULT_FONT_FAMILY)
  let m := oc.metrics fontSize fontFamily fontPath
  let ascent := m.1
  let descent := m.2.1
  let lineHeight := m.2.2
  match wrap, wrapHint2 with
  | true, some hint =>
      let textContent := pyStrip (tx ++ iterTextList cs)
      let lines := wrapLines oc fontSize fontFamily fontPath textContent hint
      let baseX := (getA attrs (QN.plain "x")).getD "0"
      let newText0 := XNode.mk tg (filteredA attrs diagNs) "" "" (mkTspans baseX lines true)
      let newText := ensureTextBaseline (applyFontAttribute newText0 fontFamily) ascent
      let lineCount : ℕ := max lines.length 1
      let height := ascent + descent + ((lineCount - 1 : ℕ) : ℚ) * lineHeight
      let width := hint
      (some newText, width, height, some (textBBoxA attrs width height ascent))
  | _, _ =>
      let cloned := cloneWithoutDiag diagNs (.mk tg attrs tx tl cs)
      let newText := ensureTextBaseline (applyFontAttribute cloned fontFamily) ascent
      let content := pyStrip (tx ++ iterTextList cs)
      let width := oc.textWidth content fontSize fontFamily fontPath
      let height := ascent + descent
      (some newText, width, height, some (textBBoxA attrs width height ascent))

mutual
/-- `_render_node`: dispatch on namespace and local name; a diag:flex runs
through the flex engine, any other diag element renders to nothing, a `text`
element goes through the text engine, everything else is cloned generically
(recursively) and measured by the oracle. -/
def renderNode (oc : RenderOracle) (diagNs : String) (wrapHint : Option ℚ)
    (famIn pathIn : Option String) (rules : List ClassStyleRule) :
    XNode → Option XNode × ℚ × ℚ × Option BBox
  | .mk tg attrs tx tl cs =>
      if tg.ns = some diagNs then
        if tg.name = "flex" then
          let p := flexParams attrs wrapHint
          let fam := fontFamilyInfoA attrs diagNs rules
          let combinedFamily := orOpt fam.1 famIn
          let combinedPath := orOpt fam.2 pathIn
          let childWrapHint := p.target.map (fun w => max (w - 2 * p.padding) 0)
          let entries :=
            renderChildEntries oc diagNs childWrapHint combinedFamily combinedPath rules cs
          renderFlexAssemble diagNs attrs p entries
        else (none, 0, 0, none)
      else if tg.name = "text" then
        renderTextCore oc diagNs wrapHint famIn pathIn rules tg attrs tx tl cs
      else
        let clone := XNode.mk tg (filteredA attrs diagNs) tx ""
          (renderGenericChildren oc diagNs wrapHint famIn pathIn rules cs)
        let meas := oc.measureNode clone
        (some clone, meas.1, meas.2.1, meas.2.2)

/-- The measuring loop of `_render_flex`: render every child under the flex's
interior wrap hint and record (element, width, height), dropping children that
render to nothing. -/
def renderChildEntries (oc : RenderOracle) (diagNs : String) (hint : Option ℚ)
    (fam path : Option String) (rules : List ClassStyleRule) :
    List XNode → List (XNode × ℚ × ℚ)
  | [] => []
  | c :: rest =>
      let r := renderNode oc diagNs hint fam path rules c
      (match r.1 with
       | some rc => [(rc, r.2.1, r.2.2.1)]
       | none => []) ++ renderChildEntries oc diagNs hint fam path rules rest

/-- The child loop of `_render_generic_node`: rendered children keep the
original child's tail. -/
def renderGenericChildren (oc : RenderOracle) (diagNs : String)
    (wrapHint : Option ℚ) (famIn pathIn : Option String)
    (rules : List ClassStyleRule) : List XNode → List XNode
  | [] => []
  | c :: rest =>
      let r := renderNode oc diagNs wrapHint famIn pathIn rules c
      (match r.1 with
       | some rc => [rc.withTail c.tail]
       | none => []) ++ renderGenericChildren oc diagNs wrapHint famIn pathIn rules rest
end

/-- The root render loop of `diagramagic` (lines 366-376): render every child
of the diagram root and append the non-empty results under the svg root. -/
def renderRootChildren (oc : RenderOracle) (diagNs : String)
    (fam path : Option String) (rules : List ClassStyleRule) :
    List XNode → List XNode
  | [] => []
  | c :: rest =>
      let r := renderNode oc diagNs none fam path rules c
      (match r.1 with
       | some rc => [rc]
       | none => []) ++ renderRootChildren oc diagNs fam path rules rest

mutual
/-- Does any element of the tree (itself included) carry a tag in the diag
namespace? -/
def containsDiagTagTree (diagNs : String) : XNode → Bool
  | .mk tg _ _ _ cs => (tg.ns = some diagNs) || containsDiagTagList diagNs cs
def containsDiagTagList (diagNs : String) : List XNode → Bool
  | [] => false
  | c :: rest => containsDiagTagTree diagNs c || containsDiagTagList diagNs rest
end


/-! ### Claims C1 and C2 -/

theorem foldl_max_choice : ∀ (xs : List ℚ) (x : ℚ),
    xs.foldl max x = x ∨ xs.foldl max x ∈ xs := by
  intro xs
  induction xs with
  | nil => intro x; left; rfl
  | cons y ys ih =>
      intro x
      rw [List.foldl_cons]
      rcases ih (max x y) with h | h
      · rw [h]
        rcases max_choice x y with h2 | h2
        · left; exact h2
        · right; rw [h2]; exact List.mem_cons_self _ _
      · right; exact List.mem_cons_of_mem _ h

theorem listMaxD_choice (l : List ℚ) (d : ℚ) :
    listMaxD l d = d ∨ listMaxD l d ∈ l := by
  cases l with
  | nil => left; rfl
  | cons x xs =>
      rcases foldl_max_choice xs x with h | h
      · right
        rw [show listMaxD (x :: xs) d = List.foldl max x xs from rfl, h]
        exact List.mem_cons_self _ _
      · right
        exact List.mem_cons_of_mem _ (show List.foldl max x xs ∈ xs from h)

theorem listMaxD_le_sum (l : List ℚ) (h : ∀ x ∈ l, 0 ≤ x) :
    listMaxD l 0 ≤ l.sum := by
  rcases listMaxD_choice l 0 with h0 | hm
  · rw [h0]; exact List.sum_nonneg h
  · exact List.single_le_sum h _ hm

/-- Claim C2 (amended): the width used for the flex group's background rect is
at least the declared width whenever one is provided, unconditionally; and it
is at least the maximum measured child width plus twice the padding, provided
the gap and the measured child widths are nonnegative (for column flexes the
bound needs no hypotheses; a row flex with a negative gap can undercut it). -/
theorem c2_flex_background_width_amended :
    ∀ (direction : String) (entries : List (XNode × ℚ × ℚ)) (target : Option ℚ)
      (padding gap : ℚ),
      (0 ≤ gap → (∀ e ∈ entries, 0 ≤ e.2.1) →
        maxChildWidth entries + 2 * padding
          ≤ (flexSizes direction entries target padding gap).2.1)
    ∧ (∀ w, target = some w →
        w ≤ (flexSizes direction entries target padding gap).2.1) := by
  intro direction entries target padding gap
  have hwidth : (flexSizes direction entries target padding gap).2.1
      = if direction = "row" then rowTotalWidth entries target padding gap
        else colTotalWidth entries target padding := by
    by_cases hd : direction = "row"
    · rw [if_pos hd]; unfold flexSizes; rw [if_pos hd]; rfl
    · rw [if_neg hd]; unfold flexSizes; rw [if_neg hd]; rfl
  have happly : ∀ w0, w0 ≤ applyTargetWidth w0 target := by
    intro w0
    cases target with
    | none => exact le_refl _
    | some w => exact le_max_left _ _
  have happly2 : ∀ w0 w, target = some w → w ≤ applyTargetWidth w0 target := by
    intro w0 w hw
    subst hw
    exact le_max_right _ _
  constructor
  · intro hg hker
    have hmax_le_nat : maxChildWidth entries ≤ rowNaturalWidth entries gap := by
      have hnn : ∀ x ∈ entryWidths entries, 0 ≤ x := by
        intro x hx
        obtain ⟨e, he, rfl⟩ := List.mem_map.mp hx
        exact hker e he
      have h1 : maxChildWidth entries ≤ (entryWidths entries).sum :=
        listMaxD_le_sum _ hnn
      have h2 : 0 ≤ (if entries = [] then (0 : ℚ)
          else gap * ((entries.length - 1 : ℕ) : ℚ)) := by
        by_cases he : entries = []
        · simp [he]
        · rw [if_neg he]
          exact mul_nonneg hg (by positivity)
      unfold rowNaturalWidth
      linarith
    rw [hwidth]
    by_cases hd : direction = "row"
    · rw [if_pos hd]
      have hint : rowNaturalWidth entries gap
          ≤ rowInteriorWidth entries target padding gap := by
        unfold rowInteriorWidth
        cases interiorTargetOf target padding with
        | none => exact le_refl _
        | some t => exact le_max_right _ _
      have := happly (rowInteriorWidth entries target padding gap + 2 * padding)
      unfold rowTotalWidth
      linarith
    · rw [if_neg hd]
      have hint : maxChildWidth entries ≤ colInteriorWidth entries target padding := by
        unfold colInteriorWidth
        cases interiorTargetOf target padding with
        | none => exact le_refl _
        | some t => exact le_max_right _ _
      have := happly (colInteriorWidth entries target padding + 2 * padding)
      unfold colTotalWidth
      linarith
  · intro w hw
    rw [hwidth]
    by_cases hd : direction = "row"
    · rw [if_pos hd]
      exact happly2 _ w hw
    · rw [if_neg hd]
      exact happly2 _ w hw

/-- Witness for C2: a row flex with two measured children of widths 10 and 1,
gap 4, padding 8 and declared width 120 gets a background width of at least
10 + 16 and at least 120. -/
theorem c2_flex_background_width_amended_witness :
    maxChildWidth [(bodyA, 10, 5), (bodyB, 1, 5)] + 2 * 8
      ≤ (flexSizes "row" [(bodyA, 10, 5), (bodyB, 1, 5)] (some 120) 8 4).2.1
  ∧ (120 : ℚ) ≤ (flexSizes "row" [(bodyA, 10, 5), (bodyB, 1, 5)] (some 120) 8 4).2.1 := by
  have h := c2_flex_background_width_amended "row" [(bodyA, 10, 5), (bodyB, 1, 5)]
    (some 120) 8 4
  refine ⟨h.1 (by norm_num) ?_, h.2 120 rfl⟩
  intro e he
  simp only [List.mem_cons, List.not_mem_nil, or_false] at he
  rcases he with rfl | rfl
  · norm_num
  · norm_num

/-- Counterexample for C2 as frozen: a row flex with gap="-5" (accepted: the
flex engine does not validate the gap) around measured children of widths 10
and 1 emits a background width of 6, which is smaller than the maximum child
width 10 plus twice the padding 0. -/
theorem c2_row_negative_gap_counterexample :
    parseLength (some "-5") (some 0) = some (-5)
  ∧ maxChildWidth [(bodyA, 10, 5), (bodyB, 1, 5)] = 10
  ∧ (flexSizes "row" [(bodyA, 10, 5), (bodyB, 1, 5)] none 0 (-5)).2.1 = 6
  ∧ ¬(maxChildWidth [(bodyA, 10, 5), (bodyB, 1, 5)] + 2 * 0
        ≤ (flexSizes "row" [(bodyA, 10, 5), (bodyB, 1, 5)] none 0 (-5)).2.1) := by
  have hmax : maxChildWidth [(bodyA, 10, 5), (bodyB, 1, 5)] = 10 := by
    unfold maxChildWidth entryWidths listMaxD
    norm_num
  have hparse : parseLength (some "-5") (some 0) = some (-5) := by
    have h := numPrefixVal_int true ['5'] [] (by decide) (by decide) (by decide) (by decide)
    simp only [if_true] at h
    have h2 : numPrefixVal "-5".data = some (-1 * (natOfDigits ['5'] : ℚ)) := h
    have h3 : natOfDigits ['5'] = 5 := by decide
    rw [h3] at h2
    simp [parseLength, h2]
  have hw : (flexSizes "row" [(bodyA, 10, 5), (bodyB, 1, 5)] none 0 (-5)).2.1 = 6 := by
    unfold flexSizes
    rw [if_pos rfl]
    show rowTotalWidth [(bodyA, 10, 5), (bodyB, 1, 5)] none 0 (-5) = 6
    unfold rowTotalWidth applyTargetWidth rowInteriorWidth interiorTargetOf
      rowNaturalWidth entryWidths
    norm_num [List.cons_ne_nil]
  refine ⟨hparse, hmax, hw, ?_⟩
  rw [hmax, hw]
  norm_num

/-- The failing input for C1: a plain `<text>` element containing a
`diag:flex` child; the non-wrapping branch of `_render_text` clones the whole
subtree via `_clone_without_diag`, which strips diag attributes but keeps
diag-namespaced child ELEMENTS. -/
def c1textNode : XNode :=
  .mk (QN.plain "text") [] "" "" [.mk ⟨some "NS", "flex"⟩ [] "" "" []]

/-- A concrete instantiation of the external oracles (the heuristic font
fallback of `_TextMeasurer.metrics` and a trivial geometry oracle). -/
def c1oracle : RenderOracle :=
  { measureNode := fun _ => (0, 0, none)
    metrics := fun size _ _ => (4 / 5 * size, 1 / 5 * size, size)
    textWidth := fun _ _ _ _ => 0 }

/-- Claim C1 (code bug): rendering the failing input emits a tree that still
contains an element tag in the private diag namespace — the diag:flex child
survives inside the cloned `<text>` — contradicting the namespace-cleanliness
invariant.  The later pipeline stages (arrow emission, bounds, background)
only add SVG nodes or set attributes on the svg root, so the leaked element
reaches the output document. -/
theorem c1_render_text_leaks_diag_tag :
    ∃ out, (renderNode c1oracle "NS" none none none [] c1textNode).1 = some out
      ∧ out.children = [.mk ⟨some "NS", "flex"⟩ [] "" "" []]
      ∧ containsDiagTagTree "NS" out = true := by
  refine ⟨_, rfl, rfl, rfl⟩


/-! ### Anchors and arrow endpoint resolution (`_collect_anchors`,
`_emit_arrows` and the section 4.9 geometry) -/

/-- `_AnchorSpec`. -/
structure AnchorSpec where
  anchorId : String
  x : Option ℚ
  y : Option ℚ
  relativeTo : Option String
  side : String
  offsetX : ℚ
  offsetY : ℚ
deriving Repr

/-- `_ArrowSpec`. -/
structure ArrowSpec where
  fromId : String
  toId : String
  slotId : String
  label : Option String
  labelSize : ℚ
  labelFill : String
  passthroughAttrs : List (String × String)
deriving Repr

/-- The per-node validation of `_collect_anchors`.  The `or 0.0` Python
applies to the parsed offsets is the identity on exact rationals. -/
def collectAnchorSpec (n : XNode) : Except String AnchorSpec :=
  let anchorId := pyStrip ((getAttr n (QN.plain "id")).getD "")
  if anchorId = "" then .error "anchor requires non-empty id"
  else
    let x := parseLength (getAttr n (QN.plain "x")) none
    let y := parseLength (getAttr n (QN.plain "y")) none
    let relativeTo0 := pyStrip ((getAttr n (QN.plain "relative-to")).getD "")
    let relativeTo := if relativeTo0 = "" then none else some relativeTo0
    let side := pyLower (pyStrip ((getAttr n (QN.plain "side")).getD "center"))
    let offsetX := (parseLength (getAttr n (QN.plain "offset-x")) (some 0)).getD 0
    let offsetY := (parseLength (getAttr n (QN.plain "offset-y")) (some 0)).getD 0
    let hasAbs := x.isSome || y.isSome
    let hasRel := relativeTo.isSome
    if hasAbs ∧ hasRel then .error "anchor cannot combine absolute and relative-to modes"
    else if ¬hasAbs ∧ ¬hasRel then .error "anchor requires either x/y or relative-to"
    else if hasAbs ∧ (x.isNone ∨ y.isNone) then .error "absolute mode requires both x and y"
    else if ¬(["top", "bottom", "left", "right", "center"].contains side) then
      .error "side must be one of top|bottom|left|right|center"
    else .ok ⟨anchorId, x, y, relativeTo, side, offsetX, offsetY⟩

/-- `_anchor_point_from_bbox`. -/
def anchorPointFromBBox (bbox : BBox) (side : String) : ℚ × ℚ :=
  let midX := (bbox.l + bbox.r) / 2
  let midY := (bbox.t + bbox.b) / 2
  if side = "top" then (midX, bbox.t)
  else if side = "bottom" then (midX, bbox.b)
  else if side = "left" then (bbox.l, midY)
  else if side = "right" then (bbox.r, midY)
  else (midX, midY)

def eps9 : ℚ := 1 / 1000000000
def eps12 : ℚ := 1 / 1000000000000

/-- `math.isclose` with `abs_tol` equal to the default `rel_tol` (how the
source always calls it). -/
def isCloseQ (a b tol : ℚ) : Bool :=
  |a - b| ≤ max (tol * max |a| |b|) tol

def bboxCenter (b : BBox) : ℚ × ℚ := ((b.l + b.r) / 2, (b.t + b.b) / 2)

/-- The candidates of `_ray_rect_intersection` (t, x, y) in source order. -/
def rayCandidates (ox oy dx dy l t r b : ℚ) : List (ℚ × ℚ × ℚ) :=
  (if eps12 < |dx| then
      [l, r].filterMap (fun xe =>
        let tt := (xe - ox) / dx
        if tt ≤ eps12 then none
        else
          let ye := oy + tt * dy
          if t - eps9 ≤ ye ∧ ye ≤ b + eps9 then some (tt, xe, ye) else none)
    else [])
  ++ (if eps12 < |dy| then
      [t, b].filterMap (fun ye =>
        let tt := (ye - oy) / dy
        if tt ≤ eps12 then none
        else
          let xe := ox + tt * dx
          if l - eps9 ≤ xe ∧ xe ≤ r + eps9 then some (tt, xe, ye) else none)
    else [])

/-- Python `min(candidates, key=t)` (the first of equal keys wins). -/
def minByFst : List (ℚ × ℚ × ℚ) → Option (ℚ × ℚ × ℚ)
  | [] => none
  | c :: rest =>
      some (rest.foldl (fun best cand => if cand.1 < best.1 then cand else best) c)

/-- `_ray_rect_intersection`. -/
def rayRectIntersection (origin toward : ℚ × ℚ) (bbox : BBox) : Option (ℚ × ℚ) :=
  let dx := toward.1 - origin.1
  let dy := toward.2 - origin.2
  if |dx| < eps12 ∧ |dy| < eps12 then none
  else
    match minByFst (rayCandidates origin.1 origin.2 dx dy bbox.l bbox.t bbox.r bbox.b) with
    | none => none
    | some c => some (c.2.1, c.2.2)

/-- `_point_on_bbox_toward`. -/
def pointOnBboxToward (bbox : BBox) (toward : ℚ × ℚ) : ℚ × ℚ :=
  match rayRectIntersection (bboxCenter bbox) toward bbox with
  | some p => p
  | none => bboxCenter bbox

/-- `_edge_segment`.  An invalid edge name raises in Python; it is unreachable
from the fixed candidate list and modelled by a degenerate segment. -/
def edgeSegment (bbox : BBox) (edge : String) : (ℚ × ℚ) × (ℚ × ℚ) :=
  if edge = "left" then ((bbox.l, bbox.t), (bbox.l, bbox.b))
  else if edge = "right" then ((bbox.r, bbox.t), (bbox.r, bbox.b))
  else if edge = "top" then ((bbox.l, bbox.t), (bbox.r, bbox.t))
  else if edge = "bottom" then ((bbox.l, bbox.b), (bbox.r, bbox.b))
  else ((0, 0), (0, 0))

/-- `_nearest_point_on_edge`. -/
def nearestPointOnEdge (bbox : BBox) (edge : String) (point : ℚ × ℚ) : ℚ × ℚ :=
  let seg := edgeSegment bbox edge
  let x1 := seg.1.1
  let y1 := seg.1.2
  let vx := seg.2.1 - x1
  let vy := seg.2.2 - y1
  let segLenSq := vx * vx + vy * vy
  if segLenSq ≤ eps12 then (x1, y1)
  else
    let tt := max 0 (min 1 (((point.1 - x1) * vx + (point.2 - y1) * vy) / segLenSq))
    (x1 + tt * vx, y1 + tt * vy)

/-- `_closest_points_on_segments` (the clamped-parameter algorithm, with its
mutations on s_n/s_d/t_n/t_d written out as staged tuples). -/
def closestPointsOnSegments (p1 q1 p2 q2 : ℚ × ℚ) : (ℚ × ℚ) × (ℚ × ℚ) :=
  let ux := q1.1 - p1.1
  let uy := q1.2 - p1.2
  let vx := q2.1 - p2.1
  let vy := q2.2 - p2.2
  let wx := p1.1 - p2.1
  let wy := p1.2 - p2.2
  let a := ux * ux + uy * uy
  let b := ux * vx + uy * vy
  let c := vx * vx + vy * vy
  let d := ux * wx + uy * wy
  let e := vx * wx + vy * wy
  let denom := a * c - b * b
  let st1 : ℚ × ℚ × ℚ × ℚ :=
    if denom < eps12 then (0, 1, e, c)
    else
      let sn := b * e - c * d
      let tn := a * e - b * d
      if sn < 0 then (0, denom, e, c)
      else if sn > denom then (denom, denom, e + b, c)
      else (sn, denom, tn, denom)
  let st2 : ℚ × ℚ × ℚ × ℚ :=
    let sn := st1.1
    let sd := st1.2.1
    let tn := st1.2.2.1
    let td := st1.2.2.2
    if tn < 0 then
      if -d < 0 then (0, sd, 0, td)
      else if -d > a then (sd, sd, 0, td)
      else (-d, a, 0, td)
    else if tn > td then
      if -d + b < 0 then (0, sd, td, td)
      else if -d + b > a then (sd, sd, td, td)
      else (-d + b, a, td, td)
    else (sn, sd, tn, td)
  let sc := if |st2.1| < eps12 then 0 else st2.1 / st2.2.1
  let tc := if |st2.2.2.1| < eps12 then 0 else st2.2.2.1 / st2.2.2.2
  ((p1.1 + sc * ux, p1.2 + sc * uy), (p2.1 + tc * vx, p2.2 + tc * vy))

/-- `_arrow_points_for_edges`. -/
def arrowPointsForEdges (fromB toB : BBox) (fromEdge toEdge : String) :
    (ℚ × ℚ) × (ℚ × ℚ) :=
  if fromEdge = "center" ∧ toEdge = "center" then (bboxCenter fromB, bboxCenter toB)
  else if fromEdge = "center" then
    let p1 := bboxCenter fromB
    (p1, nearestPointOnEdge toB toEdge p1)
  else if toEdge = "center" then
    let p2 := bboxCenter toB
    (nearestPointOnEdge fromB fromEdge p2, p2)
  else
    let seg1 := edgeSegment fromB fromEdge
    let seg2 := edgeSegment toB toEdge
    closestPointsOnSegments seg1.1 seg1.2 seg2.1 seg2.2

/-- `_resolve_arrow_points_centerline`. -/
def resolveArrowPointsCenterline (fromB toB : BBox) :
    Option ((ℚ × ℚ) × (ℚ × ℚ)) :=
  let c1 := bboxCenter fromB
  let c2 := bboxCenter toB
  if isCloseQ c1.1 c2.1 eps9 ∧ isCloseQ c1.2 c2.2 eps9 then none
  else
    match rayRectIntersection c1 c2 fromB, rayRectIntersection c2 c1 toB with
    | some a, some b => some (a, b)
    | _, _ => none

def edgeCandidates : List String := ["right", "left", "bottom", "top", "center"]

def tieOrderOf (e : String) : ℕ :=
  if e = "right" then 0
  else if e = "left" then 1
  else if e = "bottom" then 2
  else if e = "top" then 3
  else 4

/-- `_resolve_arrow_points`.  The fallback scoring compares Euclidean
distances (`math.hypot`), which are irrational; the distance function enters
as the oracle `hyp`.  The primary centerline path is fully embedded. -/
def resolveArrowPoints (hyp : ℚ → ℚ → ℚ) (fromB toB : BBox) :
    (ℚ × ℚ) × (ℚ × ℚ) :=
  match resolveArrowPointsCenterline fromB toB with
  | some r => r
  | none =>
      let best :=
        (edgeCandidates.flatMap (fun fe => edgeCandidates.map (fun te => (fe, te)))).foldl
          (fun (best : Option (ℚ × ℕ × ((ℚ × ℚ) × (ℚ × ℚ)))) fete =>
            let pts := arrowPointsForEdges fromB toB fete.1 fete.2
            let dist := hyp (pts.2.1 - pts.1.1) (pts.2.2 - pts.1.2)
            let tie := tieOrderOf fete.1 * 10 + tieOrderOf fete.2
            match best with
            | none => some (dist, tie, pts)
            | some bv =>
                if dist < bv.1 - eps9 ∨ (isCloseQ dist bv.1 eps9 ∧ tie < bv.2.1) then
                  some (dist, tie, pts)
                else best)
          none
      match best with
      | some bv => bv.2.2
      | none => ((0, 0), (0, 0))

/-- The anchor-resolution loop body of `_emit_arrows` (lines 2069-2089): the
relative side point or the absolute pair, plus the offsets — in BOTH modes. -/
def resolveAnchorPoint (seen : String → ℕ) (bboxById : String → Option BBox)
    (a : AnchorSpec) : Except String (ℚ × ℚ) :=
  match a.relativeTo with
  | some rel =>
      if seen rel = 0 then .error "anchor relative-to id not found"
      else if 1 < seen rel then .error "anchor relative-to is duplicated"
      else
        match bboxById rel with
        | none => .error "anchor relative-to has no measurable bbox"
        | some bbox =>
            let p := anchorPointFromBBox bbox a.side
            .ok (p.1 + a.offsetX, p.2 + a.offsetY)
  | none =>
      match a.x, a.y with
      | some px, some py => .ok (px + a.offsetX, py + a.offsetY)
      | _, _ => .error "absolute anchor missing x or y"

/-- The anchor-points dict of `_emit_arrows`. -/
def anchorPointsMap (seen : String → ℕ) (bboxById : String → Option BBox) :
    List AnchorSpec → Except String (String → Option (ℚ × ℚ))
  | [] => .ok (fun _ => none)
  | a :: rest =>
      match resolveAnchorPoint seen bboxById a with
      | .error e => .error e
      | .ok p =>
          match anchorPointsMap seen bboxById rest with
          | .error e => .error e
          | .ok m => .ok (fun q => if q = a.anchorId then some p else m q)

/-- The id/bbox validations `_emit_arrows` runs for a non-anchor endpoint. -/
def requireBox (seen : String → ℕ) (bboxById : String → Option BBox)
    (which idv : String) : Except String BBox :=
  if seen idv = 0 then .error (which ++ " id not found")
  else if 1 < seen idv then .error (which ++ " is duplicated")
  else
    match bboxById idv with
    | none => .error (which ++ " has no measurable bbox")
    | some b => .ok b

/-- The endpoint policy of `_emit_arrows` (lines 2101-2135): anchors win, a
single anchor pairs with a center-toward-anchor boundary point, and two boxes
go through `_resolve_arrow_points`. -/
def resolveArrowEndpoints (hyp : ℚ → ℚ → ℚ)
    (anchorPoints : String → Option (ℚ × ℚ))
    (seen : String → ℕ) (bboxById : String → Option BBox)
    (ar : ArrowSpec) : Except String ((ℚ × ℚ) × (ℚ × ℚ)) :=
  match anchorPoints ar.fromId, anchorPoints ar.toId with
  | some pf, some pt => .ok (pf, pt)
  | some pf, none =>
      match requireBox seen bboxById "to" ar.toId with
      | .error e => .error e
      | .ok tb => .ok (pf, pointOnBboxToward tb pf)
  | none, some pt =>
      match requireBox seen bboxById "from" ar.fromId with
      | .error e => .error e
      | .ok fb => .ok (pointOnBboxToward fb pt, pt)
  | none, none =>
      match requireBox seen bboxById "from" ar.fromId with
      | .error e => .error e
      | .ok fb =>
          match requireBox seen bboxById "to" ar.toId with
          | .error e => .error e
          | .ok tb => .ok (resolveArrowPoints hyp fb tb)

/-- Claim C10: the offset-x/offset-y of a diag:anchor are added to the
resolved point in BOTH modes — an absolute anchor resolves to
(x + offset-x, y + offset-y), a relative anchor to the side point plus the
offsets — and an arrow whose two endpoints are anchors uses exactly those
shifted points as its endpoints. -/
theorem c10_anchor_offsets_both_modes :
    (∀ (seen : String → ℕ) (bboxById : String → Option BBox) (a : AnchorSpec)
        (px py : ℚ),
        a.relativeTo = none → a.x = some px → a.y = some py →
        resolveAnchorPoint seen bboxById a = .ok (px + a.offsetX, py + a.offsetY))
  ∧ (∀ (seen : String → ℕ) (bboxById : String → Option BBox) (a : AnchorSpec)
        (rel : String) (bbox : BBox),
        a.relativeTo = some rel → seen rel = 1 → bboxById rel = some bbox →
        resolveAnchorPoint seen bboxById a
          = .ok ((anchorPointFromBBox bbox a.side).1 + a.offsetX,
                 (anchorPointFromBBox bbox a.side).2 + a.offsetY))
  ∧ (∀ (hyp : ℚ → ℚ → ℚ) (anchorPoints : String → Option (ℚ × ℚ))
        (seen : String → ℕ) (bboxById : String → Option BBox) (ar : ArrowSpec)
        (p1 p2 : ℚ × ℚ),
        anchorPoints ar.fromId = some p1 → anchorPoints ar.toId = some p2 →
        resolveArrowEndpoints hyp anchorPoints seen bboxById ar = .ok (p1, p2)) := by
  refine ⟨?_, ?_, ?_⟩
  · intro seen bboxById a px py hrel hx hy
    unfold resolveAnchorPoint
    rw [hrel, hx, hy]
  · intro seen bboxById a rel bbox hrel hseen hbox
    unfold resolveAnchorPoint
    rw [hrel]
    simp only [hseen, hbox]
    norm_num
  · intro hyp anchorPoints seen bboxById ar p1 p2 h1 h2
    unfold resolveArrowEndpoints
    rw [h1, h2]

/-- Witness for C10: an absolute anchor at (40,80) with offsets (3,-2)
resolves to (43,78); an arrow between it and an anchor resolved at (220,80)
gets exactly those endpoints. -/
theorem c10_anchor_offsets_both_modes_witness :
    resolveAnchorPoint (fun _ => 0) (fun _ => none)
        ⟨"p", some 40, some 80, none, "center", 3, -2⟩ = .ok (43, 78)
  ∧ resolveArrowEndpoints (fun _ _ => 0)
        (fun q => if q = "p" then some (43, 78)
                  else if q = "q" then some (220, 80) else none)
        (fun _ => 0) (fun _ => none)
        ⟨"p", "q", "diag-arrow-slot-0", none, 10, "#555", []⟩
      = .ok ((43, 78), (220, 80)) := by
  constructor
  · have h := c10_anchor_offsets_both_modes.1 (fun _ => 0) (fun _ => none)
      ⟨"p", some 40, some 80, none, "center", 3, -2⟩ 40 80 rfl rfl rfl
    rw [h]
    norm_num
  · exact c10_anchor_offsets_both_modes.2.2 (fun _ _ => 0)
      (fun q => if q = "p" then some (43, 78)
                else if q = "q" then some (220, 80) else none)
      (fun _ => 0) (fun _ => none)
      ⟨"p", "q", "diag-arrow-slot-0", none, 10, "#555", []⟩
      (43, 78) (220, 80) rfl rfl


/-! ### The internal layered graph layout (`_layout_graph`)

`_layout_graph` receives the node specs (only their ids and measured sizes
matter to it) and the edge specs (only from/to are read), the direction and
the validated nonnegative gaps. -/

structure GNodeSpec where
  nodeId : String
  width : ℚ
  height : ℚ
deriving Repr

structure GEdgeSpec where
  fromId : String
  toId : String
deriving Repr

def graphNodeOrder (nodes : List GNodeSpec) : List String :=
  nodes.map (·.nodeId)

/-- `order_index` (a dict comprehension: a later duplicate would win; node ids
are unique by the time `_layout_graph` runs). -/
def graphOrderIndex (nodes : List GNodeSpec) : String → ℕ :=
  (graphNodeOrder nodes).enum.foldl
    (fun m p => fun q => if q = p.2 then p.1 else m q)
    (fun _ => 0)

/-- `size_by_id`. -/
def graphSize (nodes : List GNodeSpec) : String → ℚ × ℚ :=
  nodes.foldl
    (fun m n => fun q => if q = n.nodeId then (n.width, n.height) else m q)
    (fun _ => (0, 0))

/-- `outgoing`: the indices of the edges leaving each node, in edge order. -/
def graphOutgoing (edges : List GEdgeSpec) (q : String) : List ℕ :=
  (List.range edges.length).filter
    (fun i =>
      match edges.get? i with
      | some e => decide (e.fromId = q)
      | none => false)

/-- The DFS of `_layout_graph` marking gray-to-gray back edges as reversed.
State: 0 unvisited, 1 on the stack (gray), 2 done.  The fuel bounds the
recursion depth; every nested call grays a fresh node, so `nodes.length + 1`
is always enough. -/
def dfsVisit (edges : List GEdgeSpec) (outg : String → List ℕ) :
    ℕ → String → (String → ℕ) × List ℕ → (String → ℕ) × List ℕ
  | 0, _, acc => acc
  | fuel + 1, u, acc =>
      let st1 : String → ℕ := fun s => if s = u then 1 else acc.1 s
      let r := (outg u).foldl
        (fun (ar : (String → ℕ) × List ℕ) eIdx =>
          match edges.get? eIdx with
          | none => ar
          | some e =>
              if ar.1 e.toId = 0 then dfsVisit edges outg fuel e.toId ar
              else if ar.1 e.toId = 1 then (ar.1, ar.2 ++ [eIdx])
              else ar)
        (st1, acc.2)
      (fun s => if s = u then 2 else r.1 s, r.2)

/-- The DFS forest loop: the indices of the reversed edges. -/
def graphReversed (nodes : List GNodeSpec) (edges : List GEdgeSpec) : List ℕ :=
  ((graphNodeOrder nodes).foldl
    (fun acc u =>
      if acc.1 u = 0 then dfsVisit edges (graphOutgoing edges) (nodes.length + 1) u acc
      else acc)
    ((fun _ => 0), [])).2

/-- `dag_edges`: every reversed edge flipped. -/
def graphDag (nodes : List GNodeSpec) (edges : List GEdgeSpec) :
    List (String × String) :=
  edges.enum.map
    (fun ie =>
      if (graphReversed nodes edges).contains ie.1 then (ie.2.toId, ie.2.fromId)
      else (ie.2.fromId, ie.2.toId))

def graphDagOut (nodes : List GNodeSpec) (edges : List GEdgeSpec)
    (u : String) : List String :=
  (graphDag nodes edges).filterMap (fun p => if p.1 = u then some p.2 else none)

/-- Kahn's queue loop (`while cursor < len(queue)`), indegrees over ℤ exactly
as in Python. -/
def kahnLoop (dagOut : String → List String) :
    ℕ → List String → ℕ → (String → ℤ) → List String → List String
  | 0, topo, _, _, _ => topo
  | fuel + 1, topo, cursor, indeg, queue =>
      match queue.get? cursor with
      | none => topo
      | some u =>
          let r := (dagOut u).foldl
            (fun (ar : (String → ℤ) × List String) v =>
              let dv := ar.1 v - 1
              let ind2 : String → ℤ := fun q => if q = v then dv else ar.1 q
              if dv = 0 then (ind2, ar.2 ++ [v]) else (ind2, ar.2))
            (indeg, queue)
          kahnLoop dagOut fuel (topo ++ [u]) (cursor + 1) r.1 r.2

/-- Topological sort with the source's fallback to declaration order when the
queue did not reach every node. -/
def graphTopo (nodes : List GNodeSpec) (edges : List GEdgeSpec) : List String :=
  let nodeOrder := graphNodeOrder nodes
  let dag := graphDag nodes edges
  let indeg0 : String → ℤ := fun v => ((dag.filter (fun p => decide (p.2 = v))).length : ℤ)
  let queue0 := nodeOrder.filter (fun u => decide (indeg0 u = 0))
  let topo := kahnLoop (graphDagOut nodes edges) (nodes.length + edges.length + 1)
    [] 0 indeg0 queue0
  if topo.length ≠ nodeOrder.length then nodeOrder else topo

/-- The longest-path rank assignment. -/
def graphRank (nodes : List GNodeSpec) (edges : List GEdgeSpec) : String → ℕ :=
  (graphTopo nodes edges).foldl
    (fun rank u =>
      let base := rank u
      (graphDagOut nodes edges u).foldl
        (fun r v => if r v < base + 1 then (fun q => if q = v then base + 1 else r q) else r)
        rank)
    (fun _ => 0)

/-- `rank_to_nodes` before the barycenter reordering: members of each rank in
declaration order. -/
def graphRankLists0 (nodes : List GNodeSpec) (edges : List GEdgeSpec)
    (r : ℕ) : List String :=
  (graphNodeOrder nodes).filter (fun n => decide (graphRank nodes edges n = r))

/-- `max(rank_to_nodes.keys(), default=0)`. -/
def graphMaxRank (nodes : List GNodeSpec) (edges : List GEdgeSpec) : ℕ :=
  ((graphNodeOrder nodes).map (graphRank nodes edges)).foldl max 0

/-- A stable insertion preserving existing order among `le`-equivalent
elements (Python's `sorted` is stable). -/
def insertLe {α : Type} (le : α → α → Bool) (x : α) : List α → List α
  | [] => [x]
  | y :: ys => if le y x then y :: insertLe le x ys else x :: y :: ys

def stableSortBy {α : Type} (le : α → α → Bool) (l : List α) : List α :=
  l.foldl (fun acc x => insertLe le x acc) []

/-- `prev_order_pos`: the position of a node inside the first earlier rank
list containing it. -/
def prevOrderPos (rankLists : ℕ → List String) (r : ℕ) (p : String) : Option ℕ :=
  (List.range r).findSome? (fun pr => (rankLists pr).indexOf? p)

/-- Predecessors of `v` from strictly earlier ranks, in dag-edge order. -/
def predsOf (dag : List (String × String)) (rank : String → ℕ) (r : ℕ)
    (v : String) : List String :=
  dag.filterMap (fun p => if p.2 = v ∧ rank p.1 < r then some p.1 else none)

/-- The sort key `(incoming median, declaration index)`; `none` is the
`float("inf")` of nodes without predecessors. -/
def medianKeyLE (a b : Option ℚ × ℕ) : Bool :=
  match a.1, b.1 with
  | none, none => a.2 ≤ b.2
  | none, some _ => false
  | some _, none => true
  | some x, some y => x < y ∨ (x = y ∧ a.2 ≤ b.2)

/-- The median of the sorted predecessor positions. -/
def medianOf (pp : List ℕ) : ℚ :=
  let mid := pp.length / 2
  if pp.length % 2 = 1 then ((pp.getD mid 0 : ℕ) : ℚ)
  else (((pp.getD (mid - 1) 0 : ℕ) : ℚ) + ((pp.getD mid 0 : ℕ) : ℚ)) / 2

/-- One top-down barycenter pass: ranks 1..max_rank reordered by the median
position of their predecessors, ties broken by declaration order. -/
def barycenterPass (dag : List (String × String)) (rank : String → ℕ)
    (orderIndex : String → ℕ) (maxRank : ℕ)
    (rankLists0 : ℕ → List String) : ℕ → List String :=
  (List.range' 1 maxRank).foldl
    (fun rankLists r =>
      let members := rankLists r
      if members = [] then rankLists
      else
        let key : String → Option ℚ × ℕ := fun n =>
          let preds := predsOf dag rank r n
          (if preds = [] then none
           else some (medianOf (stableSortBy (fun a b => decide (a ≤ b))
              (preds.map (fun p => (prevOrderPos rankLists r p).getD (orderIndex p))))),
           orderIndex n)
        let sortedM := stableSortBy (fun a b => medianKeyLE (key a) (key b)) members
        fun q => if q = r then sortedM else rankLists q)
    rankLists0

def graphRankLists (nodes : List GNodeSpec) (edges : List GEdgeSpec) :
    ℕ → List String :=
  barycenterPass (graphDag nodes edges) (graphRank nodes edges)
    (graphOrderIndex nodes) (graphMaxRank nodes edges)
    (graphRankLists0 nodes edges)

def graphIsTB (direction : String) : Bool :=
  direction = "TB" || direction = "BT"

/-- `cross_span_by_rank[r]`. -/
def graphCrossSpan (nodes : List GNodeSpec) (edges : List GEdgeSpec)
    (direction : String) (nodeGap : ℚ) (r : ℕ) : ℚ :=
  let members := graphRankLists nodes edges r
  let crossSizes := members.map (fun n =>
    if graphIsTB direction then (graphSize nodes n).1 else (graphSize nodes n).2)
  crossSizes.sum + (if members = [] then 0 else nodeGap * ((members.length - 1 : ℕ) : ℚ))

/-- `main_size_by_rank[r]`. -/
def graphMainSize (nodes : List GNodeSpec) (edges : List GEdgeSpec)
    (direction : String) (r : ℕ) : ℚ :=
  listMaxD
    ((graphRankLists nodes edges r).map (fun n =>
      if graphIsTB direction then (graphSize nodes n).2 else (graphSize nodes n).1))
    0

def graphMaxCrossSpan (nodes : List GNodeSpec) (edges : List GEdgeSpec)
    (direction : String) (nodeGap : ℚ) : ℚ :=
  listMaxD
    ((List.range (graphMaxRank nodes edges + 1)).map
      (graphCrossSpan nodes edges direction nodeGap))
    0

/-- `rank_main_origin[r]`: the cumulative cursor, i.e. the prefix sum of
`main_size + rank_gap` over the earlier ranks. -/
def graphOrigin (nodes : List GNodeSpec) (edges : List GEdgeSpec)
    (direction : String) (rankGap : ℚ) (r : ℕ) : ℚ :=
  ((List.range r).map (fun r2 => graphMainSize nodes edges direction r2 + rankGap)).sum

/-- The per-rank placement loop: positions in member order, the cross cursor
advancing by the cross size plus `node_gap`. -/
def rankAssignGo (direction : String) (size : String → ℚ × ℚ) (nodeGap : ℚ)
    (origin : ℚ) : List String → ℚ → List (String × ℚ × ℚ)
  | [], _ => []
  | n :: rest, crossCursor =>
      let wh := size n
      if graphIsTB direction then
        (n, crossCursor, if direction = "TB" then origin else -(origin + wh.2))
          :: rankAssignGo direction size nodeGap origin rest (crossCursor + wh.1 + nodeGap)
      else
        (n, (if direction = "LR" then origin else -(origin + wh.1)), crossCursor)
          :: rankAssignGo direction size nodeGap origin rest (crossCursor + wh.2 + nodeGap)

def graphRankAssignments (nodes : List GNodeSpec) (edges : List GEdgeSpec)
    (direction : String) (nodeGap rankGap : ℚ) (r : ℕ) : List (String × ℚ × ℚ) :=
  let members := graphRankLists nodes edges r
  let span := graphCrossSpan nodes edges direction nodeGap r
  rankAssignGo direction (graphSize nodes) nodeGap
    (graphOrigin nodes edges direction rankGap r) members
    ((graphMaxCrossSpan nodes edges direction nodeGap - span) / 2)

def graphAssignments (nodes : List GNodeSpec) (edges : List GEdgeSpec)
    (direction : String) (nodeGap rankGap : ℚ) : List (String × ℚ × ℚ) :=
  (List.range (graphMaxRank nodes edges + 1)).flatMap
    (graphRankAssignments nodes edges direction nodeGap rankGap)

/-- `_layout_graph`: the positions dict (later assignments override; each node
is assigned exactly once).  The returned pair is the translation of the
node's emitted `<g>` wrapper. -/
def layoutGraph (nodes : List GNodeSpec) (edges : List GEdgeSpec)
    (direction : String) (nodeGap rankGap : ℚ) : String → ℚ × ℚ :=
  (graphAssignments nodes edges direction nodeGap rankGap).foldl
    (fun m a => fun q => if q = a.1 then a.2 else m q)
    (fun _ => (0, 0))


/-! Auxiliary facts for claim C4. -/

theorem insertLe_perm {α : Type} (le : α → α → Bool) (x : α) :
    ∀ l : List α, (insertLe le x l).Perm (x :: l)
  | [] => List.Perm.refl _
  | y :: ys => by
      unfold insertLe
      by_cases h : le y x = true
      · rw [if_pos h]
        exact ((insertLe_perm le x ys).cons y).trans (List.Perm.swap x y ys)
      · rw [if_neg h]

theorem foldlInsert_perm {α : Type} (le : α → α → Bool) :
    ∀ (l acc : List α),
      (l.foldl (fun acc x => insertLe le x acc) acc).Perm (acc ++ l)
  | [], acc => by simp
  | x :: xs, acc => by
      rw [List.foldl_cons]
      refine (foldlInsert_perm le xs (insertLe le x acc)).trans ?_
      refine (List.Perm.append_right xs (insertLe_perm le x acc)).trans ?_
      exact (@List.perm_middle _ x acc xs).symm

theorem stableSortBy_perm {α : Type} (le : α → α → Bool) (l : List α) :
    (stableSortBy le l).Perm l := by
  simpa using foldlInsert_perm le l []

theorem foldl_perm_invariant {g0 : ℕ → List String}
    (step : (ℕ → List String) → ℕ → (ℕ → List String))
    (hstep : ∀ f r q, ((step f r) q).Perm (f q)) :
    ∀ (rs : List ℕ) (f : ℕ → List String), (∀ q, (f q).Perm (g0 q)) →
      ∀ q, ((rs.foldl step f) q).Perm (g0 q)
  | [], f, hf, q => hf q
  | r :: rest, f, hf, q =>
      foldl_perm_invariant step hstep rest (step f r)
        (fun q2 => (hstep f r q2).trans (hf q2)) q

/-- The barycenter pass only permutes each rank's member list. -/
theorem graphRankLists_perm (nodes : List GNodeSpec) (edges : List GEdgeSpec)
    (r : ℕ) :
    (graphRankLists nodes edges r).Perm (graphRankLists0 nodes edges r) := by
  unfold graphRankLists barycenterPass
  refine foldl_perm_invariant _ ?_ _ _ (fun q => List.Perm.refl _) r
  intro f r0 q
  by_cases hm : f r0 = []
  · rw [if_pos hm]
  · rw [if_neg hm]
    by_cases hq : q = r0
    · subst hq
      simp only [if_pos rfl]
      exact stableSortBy_perm _ _
    · simp only [if_neg hq]
      exact List.Perm.refl _

theorem rankAssignGo_fst (direction : String) (size : String → ℚ × ℚ)
    (nodeGap origin : ℚ) :
    ∀ (members : List String) (cursor : ℚ),
      (rankAssignGo direction size nodeGap origin members cursor).map Prod.fst
        = members := by
  intro members
  induction members with
  | nil => intro cursor; rfl
  | cons n rest ih =>
      intro cursor
      unfold rankAssignGo
      by_cases h : graphIsTB direction = true
      · simp only [if_pos h, List.map_cons, ih]
      · simp only [if_neg h, List.map_cons, ih]

theorem rankAssignGo_rl_mem (size : String → ℚ × ℚ) (nodeGap origin : ℚ) :
    ∀ (members : List String) (cursor : ℚ) (n : String), n ∈ members →
      ∃ y, (n, -(origin + (size n).1), y)
        ∈ rankAssignGo "RL" size nodeGap origin members cursor := by
  intro members
  induction members with
  | nil => intro cursor n h; exact absurd h (List.not_mem_nil n)
  | cons m rest ih =>
      intro cursor n h
      unfold rankAssignGo
      rw [if_neg (by decide : ¬(graphIsTB "RL" = true))]
      rcases List.mem_cons.mp h with rfl | h2
      · refine ⟨cursor, ?_⟩
        rw [if_neg (by decide : ¬("RL" = "LR"))]
        exact List.mem_cons_self _ _
      · obtain ⟨y, hy⟩ := ih (cursor + (size m).2 + nodeGap) n h2
        exact ⟨y, List.mem_cons_of_mem _ hy⟩

theorem foldl_posUpdate_notMem :
    ∀ (l : List (String × ℚ × ℚ)) (m0 : String → ℚ × ℚ) (n : String),
      n ∉ l.map Prod.fst →
      (l.foldl (fun m a => fun q => if q = a.1 then a.2 else m q) m0) n = m0 n := by
  intro l
  induction l with
  | nil => intro m0 n _; rfl
  | cons a rest ih =>
      intro m0 n h
      simp only [List.map_cons, List.mem_cons, not_or] at h
      rw [List.foldl_cons, ih _ _ h.2]
      simp [h.1]

theorem foldl_posUpdate_unique :
    ∀ (l : List (String × ℚ × ℚ)) (m0 : String → ℚ × ℚ) (n : String) (v : ℚ × ℚ),
      (n, v) ∈ l → (l.map Prod.fst).count n = 1 →
      (l.foldl (fun m a => fun q => if q = a.1 then a.2 else m q) m0) n = v := by
  intro l
  induction l with
  | nil => intro m0 n v hmem _; exact absurd hmem (List.not_mem_nil _)
  | cons a rest ih =>
      intro m0 n v hmem hcount
      rw [List.foldl_cons]
      by_cases ha : a.1 = n
      · have hc0 : (rest.map Prod.fst).count n = 0 := by
          rw [List.map_cons, List.count_cons, ha] at hcount
          simp at hcount
          omega
        have hnot : n ∉ rest.map Prod.fst := by
          rw [← List.count_pos_iff]
          omega
        rcases List.mem_cons.mp hmem with heq | hrest
        · rw [foldl_posUpdate_notMem rest _ n hnot]
          subst heq
          rw [if_pos rfl]
        · exact absurd (List.mem_map_of_mem Prod.fst hrest) (by simpa using hnot)
      · have hrestmem : (n, v) ∈ rest := by
          rcases List.mem_cons.mp hmem with heq | hrest
          · exact absurd (congrArg Prod.fst heq.symm) ha
          · exact hrest
        have hcount2 : (rest.map Prod.fst).count n = 1 := by
          rw [List.map_cons, List.count_cons,
            if_neg (by simp [ha])] at hcount
          omega
        exact ih _ n v hrestmem hcount2

theorem count_flatMap_strings :
    ∀ (rs : List ℕ) (g : ℕ → List String) (n : String),
      ((rs.flatMap g).count n) = (rs.map (fun r => (g r).count n)).sum := by
  intro rs
  induction rs with
  | nil => intro g n; rfl
  | cons r rest ih =>
      intro g n
      rw [List.flatMap_cons, List.count_append, List.map_cons, List.sum_cons, ih]

theorem sum_if_eq_range (m k c : ℕ) :
    ((List.range m).map (fun r => if k = r then c else 0)).sum
      = if k < m then c else 0 := by
  induction m with
  | zero => simp
  | succ m ih =>
      rw [List.range_succ, List.map_append, List.sum_append, ih]
      by_cases h : k = m
      · subst h
        simp [Nat.lt_irrefl, Nat.lt_succ_self]
      · by_cases h2 : k < m
        · rw [if_pos h2, if_pos (Nat.lt_succ_of_lt h2)]
          simp [h]
        · rw [if_neg h2, if_neg (by omega)]
          simp [h]

theorem count_filter_rank (nodeOrder : List String) (rank : String → ℕ)
    (r : ℕ) (n : String) :
    ((nodeOrder.filter (fun x => decide (rank x = r))).count n)
      = if rank n = r then nodeOrder.count n else 0 := by
  by_cases h : rank n = r
  · rw [if_pos h]
    exact List.count_filter (by simpa using h)
  · rw [if_neg h]
    rw [List.count_eq_zero]
    intro hmem
    have := (List.mem_filter.mp hmem).2
    simp at this
    exact h this

theorem le_foldl_max {α : Type} [LinearOrder α] :
    ∀ (xs : List α) (a : α), a ≤ xs.foldl max a := by
  intro xs
  induction xs with
  | nil => intro a; exact le_refl a
  | cons y ys ih =>
      intro a
      rw [List.foldl_cons]
      exact le_trans (le_max_left a y) (ih (max a y))

theorem mem_le_foldl_max {α : Type} [LinearOrder α] :
    ∀ (xs : List α) (a x : α), x ∈ xs → x ≤ xs.foldl max a := by
  intro xs
  induction xs with
  | nil => intro a x h; exact absurd h (List.not_mem_nil x)
  | cons y ys ih =>
      intro a x h
      rw [List.foldl_cons]
      rcases List.mem_cons.mp h with rfl | h2
      · exact le_trans (le_max_right a x) (le_foldl_max ys (max a x))
      · exact ih (max a y) x h2

theorem le_listMaxD {x : ℚ} {l : List ℚ} (h : x ∈ l) (d : ℚ) :
    x ≤ listMaxD l d := by
  cases l with
  | nil => exact absurd h (List.not_mem_nil x)
  | cons y ys =>
      rcases List.mem_cons.mp h with rfl | h2
      · exact le_foldl_max ys x
      · exact mem_le_foldl_max ys y x h2

theorem listMaxD_nonneg {l : List ℚ} (h : ∀ x ∈ l, 0 ≤ x) :
    0 ≤ listMaxD l 0 := by
  rcases listMaxD_choice l 0 with h0 | hm
  · rw [h0]
  · exact h _ hm

theorem graphSize_width_nonneg (nodes : List GNodeSpec)
    (h : ∀ n ∈ nodes, 0 ≤ n.width) (q : String) :
    0 ≤ (graphSize nodes q).1 := by
  unfold graphSize
  suffices hgen : ∀ (l : List GNodeSpec) (m0 : String → ℚ × ℚ),
      (∀ n ∈ l, 0 ≤ n.width) → (∀ p, 0 ≤ (m0 p).1) →
      ∀ p, 0 ≤ ((l.foldl
        (fun m n => fun q2 => if q2 = n.nodeId then (n.width, n.height) else m q2)
        m0) p).1 by
    exact hgen nodes _ h (fun _ => le_refl 0) q
  intro l
  induction l with
  | nil => intro m0 _ hm p; exact hm p
  | cons n rest ih =>
      intro m0 hl hm p
      rw [List.foldl_cons]
      refine ih _ (fun x hx => hl x (List.mem_cons_of_mem _ hx)) ?_ p
      intro p2
      by_cases hp : p2 = n.nodeId
      · simp only [hp, if_pos rfl]
        exact hl n (List.mem_cons_self _ _)
      · simp only [if_neg hp]
        exact hm p2

theorem graphMainSize_rl_nonneg (nodes : List GNodeSpec) (edges : List GEdgeSpec)
    (h : ∀ n ∈ nodes, 0 ≤ n.width) (r : ℕ) :
    0 ≤ graphMainSize nodes edges "RL" r := by
  unfold graphMainSize
  refine listMaxD_nonneg ?_
  intro x hx
  obtain ⟨n, _, rfl⟩ := List.mem_map.mp hx
  rw [if_neg (by decide : ¬(graphIsTB "RL" = true))]
  exact graphSize_width_nonneg nodes h n

theorem width_le_graphMainSize_rl (nodes : List GNodeSpec) (edges : List GEdgeSpec)
    {n : String} {r : ℕ} (hmem : n ∈ graphRankLists nodes edges r) :
    (graphSize nodes n).1 ≤ graphMainSize nodes edges "RL" r := by
  unfold graphMainSize
  have hx : (graphSize nodes n).1
      ∈ (graphRankLists nodes edges r).map (fun n2 =>
          if graphIsTB "RL" = true then (graphSize nodes n2).2 else (graphSize nodes n2).1) := by
    refine List.mem_map.mpr ⟨n, hmem, ?_⟩
    rw [if_neg (by decide : ¬(graphIsTB "RL" = true))]
  exact le_listMaxD hx 0

theorem graphOrigin_succ (nodes : List GNodeSpec) (edges : List GEdgeSpec)
    (direction : String) (rankGap : ℚ) (r : ℕ) :
    graphOrigin nodes edges direction rankGap (r + 1)
      = graphOrigin nodes edges direction rankGap r
        + graphMainSize nodes edges direction r + rankGap := by
  unfold graphOrigin
  rw [List.range_succ, List.map_append, List.sum_append]
  simp [add_assoc]

theorem graphOrigin_mono (nodes : List GNodeSpec) (edges : List GEdgeSpec)
    (rankGap : ℚ) (hg : 0 ≤ rankGap) (hw : ∀ n ∈ nodes, 0 ≤ n.width)
    {r1 r2 : ℕ} (h : r1 ≤ r2) :
    graphOrigin nodes edges "RL" rankGap r1 ≤ graphOrigin nodes edges "RL" rankGap r2 := by
  induction r2, h using Nat.le_induction with
  | base => exact le_refl _
  | succ m hm ih =>
      rw [graphOrigin_succ]
      have h1 : 0 ≤ graphMainSize nodes edges "RL" m :=
        graphMainSize_rl_nonneg nodes edges hw m
      linarith

theorem graphRank_le_maxRank (nodes : List GNodeSpec) (edges : List GEdgeSpec)
    {n : String} (h : n ∈ graphNodeOrder nodes) :
    graphRank nodes edges n ≤ graphMaxRank nodes edges := by
  unfold graphMaxRank
  exact mem_le_foldl_max _ 0 _ (List.mem_map_of_mem (graphRank nodes edges) h)

/-- For direction RL, each declared node's emitted x translation is the
negated sum of its rank's cumulative origin and its own width. -/
theorem layoutGraph_rl_x (nodes : List GNodeSpec) (edges : List GEdgeSpec)
    (nodeGap rankGap : ℚ) (n : String)
    (hnodup : (graphNodeOrder nodes).Nodup) (hmem : n ∈ graphNodeOrder nodes) :
    (layoutGraph nodes edges "RL" nodeGap rankGap n).1
      = -(graphOrigin nodes edges "RL" rankGap (graphRank nodes edges n)
          + (graphSize nodes n).1) := by
  have hmem0 : n ∈ graphRankLists0 nodes edges (graphRank nodes edges n) := by
    refine List.mem_filter.mpr ⟨hmem, by simp⟩
  have hmemF : n ∈ graphRankLists nodes edges (graphRank nodes edges n) :=
    (graphRankLists_perm nodes edges _).mem_iff.mpr hmem0
  obtain ⟨y, hy⟩ := rankAssignGo_rl_mem (graphSize nodes) nodeGap
    (graphOrigin nodes edges "RL" rankGap (graphRank nodes edges n))
    (graphRankLists nodes edges (graphRank nodes edges n))
    ((graphMaxCrossSpan nodes edges "RL" nodeGap
        - graphCrossSpan nodes edges "RL" nodeGap (graphRank nodes edges n)) / 2)
    n hmemF
  have hpairmem : (n, -(graphOrigin nodes edges "RL" rankGap (graphRank nodes edges n)
      + (graphSize nodes n).1), y)
      ∈ graphAssignments nodes edges "RL" nodeGap rankGap := by
    refine List.mem_flatMap.mpr ⟨graphRank nodes edges n, ?_, hy⟩
    refine List.mem_range.mpr (Nat.lt_succ_of_le (graphRank_le_maxRank nodes edges hmem))
  have hcount : ((graphAssignments nodes edges "RL" nodeGap rankGap).map Prod.fst).count n
      = 1 := by
    unfold graphAssignments
    rw [List.map_flatMap]
    rw [count_flatMap_strings]
    have hmapeq : ∀ r : ℕ,
        ((graphRankAssignments nodes edges "RL" nodeGap rankGap r).map Prod.fst).count n
          = if graphRank nodes edges n = r then (graphNodeOrder nodes).count n else 0 := by
      intro r
      unfold graphRankAssignments
      rw [rankAssignGo_fst]
      rw [((graphRankLists_perm nodes edges r).count_eq n)]
      exact count_filter_rank _ _ r n
    calc ((List.range (graphMaxRank nodes edges + 1)).map
            (fun r => ((graphRankAssignments nodes edges "RL" nodeGap rankGap r).map
              Prod.fst).count n)).sum
        = ((List.range (graphMaxRank nodes edges + 1)).map
            (fun r => if graphRank nodes edges n = r
              then (graphNodeOrder nodes).count n else 0)).sum := by
          exact congrArg List.sum (List.map_congr_left (fun r _ => hmapeq r))
      _ = (graphNodeOrder nodes).count n := by
          rw [sum_if_eq_range]
          rw [if_pos (Nat.lt_succ_of_le (graphRank_le_maxRank nodes edges hmem))]
      _ = 1 := List.count_eq_one_of_mem hnodup hmem
  have := foldl_posUpdate_unique
    (graphAssignments nodes edges "RL" nodeGap rankGap) (fun _ => (0, 0)) n
    (-(graphOrigin nodes edges "RL" rankGap (graphRank nodes edges n)
        + (graphSize nodes n).1), y)
    hpairmem hcount
  unfold layoutGraph
  rw [this]


/-! Claim C4: RL graph layout edge ordering. -/

def c4nodes : List GNodeSpec := [⟨"a", 0, 0⟩, ⟨"b", 0, 0⟩]

def c4edge : GEdgeSpec := ⟨"a", "b"⟩

def c4edges : List GEdgeSpec := [c4edge]

/-- C4 (amended): for a layered graph laid out with direction "RL", an edge
from `a` to `b` whose endpoints are declared nodes with distinct ids, the
x-coordinate of `b`'s group translation is strictly less than `a`'s,
PROVIDED the rank gap is strictly positive and the edge runs forward in the
computed rank order (`rank a < rank b`, which holds exactly when the
cycle-breaking DFS did not reverse it).  The claim's unconditional form
fails at rank-gap 0, which the source accepts (only negative gaps are
rejected). -/
theorem c4_rl_edge_x_order_amended (nodes : List GNodeSpec) (edges : List GEdgeSpec)
    (nodeGap rankGap : ℚ) (e : GEdgeSpec)
    (hnodup : (graphNodeOrder nodes).Nodup)
    (hfrom : e.fromId ∈ graphNodeOrder nodes)
    (hto : e.toId ∈ graphNodeOrder nodes)
    (hw : ∀ n ∈ nodes, 0 ≤ n.width)
    (hg : 0 < rankGap)
    (hrk : graphRank nodes edges e.fromId < graphRank nodes edges e.toId) :
    (layoutGraph nodes edges "RL" nodeGap rankGap e.toId).1
      < (layoutGraph nodes edges "RL" nodeGap rankGap e.fromId).1 := by
  rw [layoutGraph_rl_x nodes edges nodeGap rankGap e.toId hnodup hto,
      layoutGraph_rl_x nodes edges nodeGap rankGap e.fromId hnodup hfrom]
  have hmono := graphOrigin_mono nodes edges rankGap (le_of_lt hg) hw
    (Nat.succ_le_of_lt hrk)
  rw [graphOrigin_succ] at hmono
  have hmemF : e.fromId ∈ graphRankLists nodes edges (graphRank nodes edges e.fromId) := by
    refine ((graphRankLists_perm nodes edges _).mem_iff).mpr ?_
    exact List.mem_filter.mpr ⟨hfrom, by simp⟩
  have hwle := width_le_graphMainSize_rl nodes edges hmemF
  have hto0 : 0 ≤ (graphSize nodes e.toId).1 := graphSize_width_nonneg nodes hw _
  linarith

/-- Witness for C4 on a concrete two-node graph with an `a → b` edge,
rank gap 1. -/
theorem c4_rl_edge_x_order_amended_witness :
    graphRank c4nodes c4edges "a" < graphRank c4nodes c4edges "b"
    ∧ (0 : ℚ) < 1
    ∧ (layoutGraph c4nodes c4edges "RL" 10 1 "b").1
        < (layoutGraph c4nodes c4edges "RL" 10 1 "a").1 :=
  ⟨by decide, by decide,
    c4_rl_edge_x_order_amended c4nodes c4edges 10 1 c4edge
      (by decide) (by decide) (by decide) (by decide) (by decide) (by decide)⟩

/-- Counterexample to the claim's unconditional form: rank-gap 0 (accepted by
the source, which rejects only negative gaps) with two zero-width nodes makes
both translations coincide, so the strict inequality fails even though the
edge runs forward in rank order. -/
theorem c4_rl_zero_gap_counterexample :
    c4edge ∈ c4edges
    ∧ graphRank c4nodes c4edges c4edge.fromId < graphRank c4nodes c4edges c4edge.toId
    ∧ (layoutGraph c4nodes c4edges "RL" 10 0 c4edge.toId).1
        = (layoutGraph c4nodes c4edges "RL" 10 0 c4edge.fromId).1
    ∧ ¬ ((layoutGraph c4nodes c4edges "RL" 10 0 c4edge.toId).1
        < (layoutGraph c4nodes c4edges "RL" 10 0 c4edge.fromId).1) := by
  have hxa := layoutGraph_rl_x c4nodes c4edges 10 0 "a" (by decide) (by decide)
  have hxb := layoutGraph_rl_x c4nodes c4edges 10 0 "b" (by decide) (by decide)
  have hra : graphRank c4nodes c4edges "a" = 0 := by decide
  have hrb : graphRank c4nodes c4edges "b" = 1 := by decide
  rw [hra] at hxa
  rw [hrb, graphOrigin_succ] at hxb
  have hrl0 : graphRankLists c4nodes c4edges 0 = ["a"] := by decide
  have hsa : (graphSize c4nodes "a").1 = 0 := by decide
  have hsb : (graphSize c4nodes "b").1 = 0 := by decide
  have hms : graphMainSize c4nodes c4edges "RL" 0 = 0 := by
    unfold graphMainSize
    rw [hrl0]
    simp only [List.map_cons, List.map_nil]
    rw [if_neg (by decide : ¬(graphIsTB "RL" = true)), hsa]
    rfl
  have ho0 : graphOrigin c4nodes c4edges "RL" 0 0 = 0 := rfl
  rw [ho0, hsa] at hxa
  rw [ho0, hms, hsb] at hxb
  refine ⟨List.mem_cons_self _ _, by decide, ?_, ?_⟩
  · show (layoutGraph c4nodes c4edges "RL" 10 0 "b").1
        = (layoutGraph c4nodes c4edges "RL" 10 0 "a").1
    rw [hxa, hxb]; norm_num
  · show ¬ ((layoutGraph c4nodes c4edges "RL" 10 0 "b").1
        < (layoutGraph c4nodes c4edges "RL" 10 0 "a").1)
    rw [hxa, hxb]; norm_num


/-! Claim C3: arrow label rotation angle (`_emit_arrow_label`).  The source
computes `math.degrees(math.atan2(dy, dx))` and then folds the result by
±180 when it leaves [-90, 90].  `math.atan2` is modeled by the standard
real-valued piecewise definition (image (-pi, pi]). -/

noncomputable def atan2 (y x : ℝ) : ℝ :=
  if 0 < x then Real.arctan (y / x)
  else if x < 0 then
    (if 0 ≤ y then Real.arctan (y / x) + Real.pi else Real.arctan (y / x) - Real.pi)
  else
    (if 0 < y then Real.pi / 2 else if y < 0 then -(Real.pi / 2) else 0)

/-- `math.degrees(math.atan2(dy, dx))`. -/
noncomputable def labelAngleRaw (dx dy : ℝ) : ℝ :=
  atan2 dy dx * (180 / Real.pi)

/-- `if angle > 90.0: angle -= 180.0 elif angle < -90.0: angle += 180.0`. -/
noncomputable def normalizeAngle (a : ℝ) : ℝ :=
  if 90 < a then a - 180 else if a < -90 then a + 180 else a

noncomputable def labelAngle (dx dy : ℝ) : ℝ :=
  normalizeAngle (labelAngleRaw dx dy)

/-- The rotate transform of the label: attached exactly when
`abs(angle) >= 15.0`. -/
noncomputable def labelRotate (dx dy : ℝ) : Option ℝ :=
  if 15 ≤ |labelAngle dx dy| then some (labelAngle dx dy) else none

theorem atan2_le_pi (y x : ℝ) : atan2 y x ≤ Real.pi := by
  unfold atan2
  have hpi := Real.pi_pos
  split_ifs with h1 h2 h3 h4 h5
  · have := Real.arctan_lt_pi_div_two (y / x)
    linarith
  · have hyx : y / x ≤ 0 := by
      rw [div_nonpos_iff]
      left
      exact ⟨h3, le_of_lt h2⟩
    have := Real.arctan_strictMono.monotone hyx
    rw [Real.arctan_zero] at this
    linarith
  · have := Real.arctan_lt_pi_div_two (y / x)
    linarith
  · linarith
  · linarith
  · linarith

theorem neg_pi_lt_atan2 (y x : ℝ) : -Real.pi < atan2 y x := by
  unfold atan2
  have hpi := Real.pi_pos
  split_ifs with h1 h2 h3 h4 h5
  · have := Real.neg_pi_div_two_lt_arctan (y / x)
    linarith
  · have := Real.neg_pi_div_two_lt_arctan (y / x)
    linarith
  · have hy : y < 0 := lt_of_not_le h3
    have hyx : 0 < y / x := by
      rw [div_pos_iff]
      right
      exact ⟨hy, h2⟩
    have := Real.arctan_strictMono hyx
    rw [Real.arctan_zero] at this
    linarith
  · linarith
  · linarith
  · linarith

theorem labelAngleRaw_le_180 (dx dy : ℝ) : labelAngleRaw dx dy ≤ 180 := by
  unfold labelAngleRaw
  have hpi := Real.pi_pos
  have hc : (0 : ℝ) < 180 / Real.pi := by positivity
  have h1 := mul_le_mul_of_nonneg_right (atan2_le_pi dy dx) (le_of_lt hc)
  have h2 : Real.pi * (180 / Real.pi) = 180 := by
    field_simp
  linarith

theorem neg_180_lt_labelAngleRaw (dx dy : ℝ) : -180 < labelAngleRaw dx dy := by
  unfold labelAngleRaw
  have hpi := Real.pi_pos
  have hc : (0 : ℝ) < 180 / Real.pi := by positivity
  have h1 := mul_lt_mul_of_pos_right (neg_pi_lt_atan2 dy dx) hc
  have h2 : Real.pi * (180 / Real.pi) = 180 := by
    field_simp
  have h3 : -Real.pi * (180 / Real.pi) = -180 := by
    field_simp
    ring
  linarith

theorem labelAngle_bounds (dx dy : ℝ) :
    -90 ≤ labelAngle dx dy ∧ labelAngle dx dy ≤ 90 := by
  unfold labelAngle normalizeAngle
  have h1 := labelAngleRaw_le_180 dx dy
  have h2 := neg_180_lt_labelAngleRaw dx dy
  split_ifs with h3 h4
  · constructor <;> linarith
  · constructor <;> linarith
  · push_neg at h3 h4
    exact ⟨h4, h3⟩

/-- C3 (amended): the normalized arrow-label angle always lies in the CLOSED
interval [-90, 90] (not the half-open (-90, 90]: a straight-down segment
normalizes to exactly -90, which the elif chain leaves untouched), and the
rotate transform is attached exactly when the absolute normalized angle is
at least 15 degrees. -/
theorem c3_label_angle_range_amended (dx dy : ℝ) :
    (-90 ≤ labelAngle dx dy ∧ labelAngle dx dy ≤ 90)
    ∧ (15 ≤ |labelAngle dx dy| → labelRotate dx dy = some (labelAngle dx dy))
    ∧ (|labelAngle dx dy| < 15 → labelRotate dx dy = none) := by
  refine ⟨labelAngle_bounds dx dy, ?_, ?_⟩
  · intro h
    unfold labelRotate
    rw [if_pos h]
  · intro h
    unfold labelRotate
    rw [if_neg (not_le.mpr h)]

theorem labelAngle_horizontal : labelAngle 1 0 = 0 := by
  have h0 : atan2 (0 : ℝ) 1 = 0 := by
    unfold atan2
    rw [if_pos one_pos, zero_div, Real.arctan_zero]
  unfold labelAngle normalizeAngle labelAngleRaw
  rw [h0, zero_mul]
  norm_num

/-- Witness for C3: a horizontal arrow (dx=1, dy=0) has normalized angle 0,
inside the bounds, and no rotate transform is attached. -/
theorem c3_label_angle_range_amended_witness :
    labelAngle 1 0 = 0 ∧ labelRotate 1 0 = none := by
  refine ⟨labelAngle_horizontal, ?_⟩
  refine (c3_label_angle_range_amended 1 0).2.2 ?_
  rw [labelAngle_horizontal]
  norm_num

/-- Counterexample to the claim's interval (-90, 90]: a straight-down arrow
(dx=0, dy=-1) yields atan2 = -pi/2, i.e. -90 degrees, which the
normalization chain (`angle > 90` / `angle < -90`, both strict) leaves at
exactly -90; since abs(-90) >= 15 a rotate transform IS attached with angle
-90, which is outside (-90, 90]. -/
theorem c3_vertical_arrow_angle_counterexample :
    labelAngle 0 (-1) = -90
    ∧ labelRotate 0 (-1) = some (labelAngle 0 (-1))
    ∧ ¬ (-90 < labelAngle 0 (-1)) := by
  have h0 : atan2 (-1 : ℝ) 0 = -(Real.pi / 2) := by
    unfold atan2
    norm_num
  have hraw : labelAngleRaw 0 (-1) = -90 := by
    unfold labelAngleRaw
    rw [h0]
    have hpi := Real.pi_ne_zero
    field_simp
    ring
  have hang : labelAngle 0 (-1) = -90 := by
    unfold labelAngle normalizeAngle
    rw [hraw]
    norm_num
  refine ⟨hang, ?_, ?_⟩
  · unfold labelRotate
    rw [hang]
    rw [if_pos (by norm_num)]
  · rw [hang]
    norm_num

end Diagramagic
